import Mathlib

/-!
# cache.js: expiry-aware key/value stores

A shallow embedding of `src/cache.js`.

* `localStore` keeps its slots in the host `localStorage`, a string-to-string
  medium. `memoryStore` keeps them as properties of the plain object `store`,
  created by `{}`: a table of own properties and a prototype. Reading a
  property walks the prototype chain, and writing the name `__proto__` reaches
  the accessor inherited from `Object.prototype`.
* An entry is two flat slots, `key` and `key + "_expiry"`. Own properties and
  the medium are association lists in insertion order: writing a name that is
  already there replaces the value in place, a new name is appended.
* `Date.now()` is a natural number of milliseconds; a time value is at most
  `maxTime` (8.64e15).
* Numbers are rationals, the two infinities and not-a-number. The arithmetic
  of `set` works on integers, and each result is rounded by the runtime
  (`Host.toDouble`).
* The values handed to a store are data: primitives, arrays and plain objects
  of data. What a read can find on the built-in prototypes is a `JsOut`.
* The persistent medium has no quota here: `setItem` always succeeds once a
  store has been selected.
* The language built-ins the code calls (`Number.parseInt`, rounding, the
  conversions between numbers and strings, `JSON.stringify`, `JSON.parse`, the
  member names of the built-in prototypes) are fields of a `Host`; the laws the
  source relies on are `Host.Lawful`, and `refHost` is a lawful runtime on
  which everything evaluates.
-/

namespace CacheJs

/-! ## Values -/

/-- A number: not-a-number, an infinity, or a finite value. -/
inductive JsNum where
  | nan
  | negInf
  | posInf
  | fin (q : ℚ)

/-- The outcome of `x < n` for a number `x` and the integer `n`: every
comparison with not-a-number is false. -/
def JsNum.ltNat : JsNum → Nat → Bool
  | .nan, _ => false
  | .negInf, _ => true
  | .posInf, _ => false
  | .fin q, n => decide (q < (n : ℚ))

/-- The built-in `Number.isNaN`. -/
def JsNum.isNaN : JsNum → Bool
  | .nan => true
  | _ => false

/-- Truthiness of a number: zero and not-a-number are not truthy. -/
def JsNum.toBoolean : JsNum → Bool
  | .nan => false
  | .fin q => decide (q ≠ 0)
  | _ => true

/-- An integer-valued number, as `parseInt` and the arithmetic on its result
yield: not-a-number, an infinity, or an integer. -/
inductive JsInt where
  | nan
  | negInf
  | posInf
  | int (n : Int)

/-- An integer-valued number as a number. -/
def JsInt.toNum : JsInt → JsNum
  | .nan => .nan
  | .negInf => .negInf
  | .posInf => .posInf
  | .int n => .fin (n : ℚ)

/-- The built-in `Number.isNaN` on the result of `parseInt`. -/
def JsInt.isNaN : JsInt → Bool
  | .nan => true
  | _ => false

/-- The outcome of `x < 1`. -/
def JsInt.ltOne : JsInt → Bool
  | .nan => false
  | .negInf => true
  | .posInf => false
  | .int n => decide (n < 1)

/-- The order of integer-valued numbers; not-a-number is not comparable. -/
def JsInt.le : JsInt → JsInt → Prop
  | .int m, .int n => m ≤ n
  | .int _, .posInf => True
  | .negInf, .int _ => True
  | .negInf, .negInf => True
  | .negInf, .posInf => True
  | .posInf, .posInf => True
  | _, _ => False

/-- The data values handed to the stores. -/
inductive JsVal where
  | undefined
  | null
  | bool (b : Bool)
  | num (x : JsNum)
  | str (s : String)
  | arr (items : List JsVal)
  | obj (fields : List (String × JsVal))

/-- What a property read returns: a data value, or a built-in object of the
runtime (a function of a built-in prototype, or `Object.prototype` itself),
named by where it is found. -/
inductive JsOut where
  | val (v : JsVal)
  | builtin (name : String)

/-- Truthiness of a value, as tested by `!expiry`. -/
def JsVal.toBoolean : JsVal → Bool
  | .undefined => false
  | .null => false
  | .bool b => b
  | .num x => x.toBoolean
  | .str s => decide (s ≠ "")
  | .arr _ => true
  | .obj _ => true

/-- What the code asks of the language runtime. -/
structure Host where
  /-- The double nearest to an exact integer result; an infinity on overflow. -/
  toDouble : Int → JsInt
  /-- String form of a number. -/
  numberToString : JsNum → String
  /-- Numeric value of a string. -/
  stringToNumber : String → JsNum
  /-- String form of an array or object. -/
  objectToString : JsVal → String
  /-- String form of a built-in object. -/
  builtinToString : String → String
  /-- The built-in `Number.parseInt`. -/
  parseInt : JsVal → JsInt
  /-- The built-in `JSON.stringify`; `none` is the result `undefined`. -/
  jsonStringify : JsVal → Option String
  /-- The built-in `JSON.parse`; `none` is a thrown syntax error. -/
  jsonParse : String → Option JsVal
  /-- The names of the data properties of `Object.prototype`. -/
  objectPrototypeNames : List String
  /-- The names of the properties of `Array.prototype`. -/
  arrayPrototypeNames : List String

/-- An integer-valued number the runtime can hold: rounding leaves it as it
is. -/
def Host.IsDouble (H : Host) : JsInt → Prop
  | .int n => H.toDouble n = .int n
  | _ => True

/-- The name of the slot holding the expiry of a key: `key + "_expiry"`. -/
def expirySlot (key : String) : String := key ++ "_expiry"

/-- What the source relies on from the runtime. Rounding is exact on integers
up to 2^53, monotone, and yields a number the runtime can hold; the string
form of such a number is not empty and converts back to it; `parseInt` of
`undefined` is not-a-number; `parseInt` of a positive integer is a positive
integer, not above it; the JSON text `null` parses to `null`; no property of
`Object.prototype` has a name ending in `_expiry`. -/
structure Host.Lawful (H : Host) : Prop where
  toDouble_int : ∀ n : Int, |n| ≤ 2 ^ 53 → H.toDouble n = .int n
  toDouble_mono : ∀ m n : Int, m ≤ n → (H.toDouble m).le (H.toDouble n)
  toDouble_isDouble : ∀ n : Int, H.IsDouble (H.toDouble n)
  numberToString_ne_empty : ∀ x, H.IsDouble x → H.numberToString x.toNum ≠ ""
  stringToNumber_numberToString : ∀ x, H.IsDouble x →
    H.stringToNumber (H.numberToString x.toNum) = x.toNum
  parseInt_undefined : H.parseInt .undefined = .nan
  parseInt_num_pos : ∀ t : Int, 1 ≤ t →
    ∃ m : Int, H.parseInt (.num (.fin (t : ℚ))) = .int m ∧ 1 ≤ m ∧ m ≤ t
  jsonParse_null : H.jsonParse "null" = some .null
  objectPrototype_no_expiry : ∀ key, expirySlot key ∉ H.objectPrototypeNames

/-- String coercion of a value, as done by `localStorage.setItem`. -/
def JsVal.toStr (H : Host) : JsVal → String
  | .undefined => "undefined"
  | .null => "null"
  | .bool true => "true"
  | .bool false => "false"
  | .num x => H.numberToString x
  | .str s => s
  | .arr items => H.objectToString (.arr items)
  | .obj fields => H.objectToString (.obj fields)

/-- Numeric coercion of a value, as done by `expiry < Date.now()`. -/
def JsVal.toNumber (H : Host) : JsVal → JsNum
  | .undefined => .nan
  | .null => .fin 0
  | .bool true => .fin 1
  | .bool false => .fin 0
  | .num x => x
  | .str s => H.stringToNumber s
  | .arr items => H.stringToNumber (H.objectToString (.arr items))
  | .obj fields => H.stringToNumber (H.objectToString (.obj fields))

/-- Truthiness of what a read returned: every object is truthy. -/
def JsOut.toBoolean : JsOut → Bool
  | .val v => v.toBoolean
  | .builtin _ => true

/-- Numeric coercion of what a read returned. -/
def JsOut.toNumber (H : Host) : JsOut → JsNum
  | .val v => v.toNumber H
  | .builtin name => H.stringToNumber (H.builtinToString name)

/-! ## Slots -/

/-- Named slots in insertion order. -/
abbrev Slots (α : Type) := List (String × α)

namespace Slots

variable {α : Type}

/-- Read a slot. -/
def read : Slots α → String → Option α
  | [], _ => none
  | (k, v) :: rest, name => if k = name then some v else read rest name

/-- Write a slot: replace in place, or append. -/
def write : Slots α → String → α → Slots α
  | [], name, v => [(name, v)]
  | (k, w) :: rest, name, v =>
    if k = name then (name, v) :: rest else (k, w) :: write rest name v

/-- Delete a slot. -/
def delete : Slots α → String → Slots α
  | [], _ => []
  | (k, w) :: rest, name =>
    if k = name then delete rest name else (k, w) :: delete rest name

/-- The names in use. -/
def keys (s : Slots α) : List String := s.map Prod.fst

end Slots

/-! ## The expiry computed by `set` -/

/-- The largest time value, 8.64e15 milliseconds. -/
def maxTime : Nat := 8640000000000000

/-- The `expiryInSeconds` after the two assignments at the top of `set`:
`3 * 60 * 60` when the parse is not-a-number or below 1. -/
def effectiveExpiry (H : Host) (expiryInSeconds : JsVal) : JsInt :=
  if (H.parseInt expiryInSeconds).isNaN || (H.parseInt expiryInSeconds).ltOne
  then .int (3 * 60 * 60) else H.parseInt expiryInSeconds

/-- The product `expiryInSeconds * 1000`. -/
def timesThousand (H : Host) : JsInt → JsInt
  | .int n => H.toDouble (n * 1000)
  | .posInf => .posInf
  | .negInf => .negInf
  | .nan => .nan

/-- The sum `Date.now() + x`. -/
def plusNow (H : Host) (now : Nat) : JsInt → JsInt
  | .int n => H.toDouble ((now : Int) + n)
  | .posInf => .posInf
  | .negInf => .negInf
  | .nan => .nan

/-- The value `Date.now() + expiryInSeconds * 1000` that `set` computes. -/
def expiryInt (H : Host) (now : Nat) (expiryInSeconds : JsVal) : JsInt :=
  plusNow H now (timesThousand H (effectiveExpiry H expiryInSeconds))

/-- The same as the number that `set` stores. -/
def expiryTime (H : Host) (now : Nat) (expiryInSeconds : JsVal) : JsNum :=
  (expiryInt H now expiryInSeconds).toNum

/-! ## localStore -/

namespace LocalStore

/-- The contents of `localStorage`. -/
abbrev State := Slots String

/-- Source `remove(key)` of `localStore`. -/
def remove (st : State) (key : String) : State :=
  (st.delete key).delete (expirySlot key)

/-- Source `set(key, value, expiryInSeconds)` of `localStore`; an omitted
third argument is `undefined`, and `setItem` stores the string form. -/
def set (H : Host) (now : Nat) (st : State) (key : String) (value : JsVal)
    (expiryInSeconds : JsVal) : State :=
  (st.write key (value.toStr H)).write (expirySlot key)
    (H.numberToString (expiryTime H now expiryInSeconds))

/-- Source `get(key)` of `localStore`: the new contents and the returned
value. A missing slot reads as `null`. -/
def get (H : Host) (now : Nat) (st : State) (key : String) : State × JsVal :=
  match st.read (expirySlot key) with
  | none => (remove st key, .null)
  | some expiry =>
    if expiry = "" || (H.stringToNumber expiry).ltNat now then (remove st key, .null)
    else
      match st.read key with
      | none => (st, .null)
      | some v => (st, .str v)

/-- The argument `JSON.stringify(value)` that `oSet` hands to `set`. -/
def stringified (H : Host) (value : JsVal) : JsVal :=
  match H.jsonStringify value with
  | some text => .str text
  | none => .undefined

/-- Source `oSet(key, value, expiryInSeconds)` of `localStore`. -/
def oSet (H : Host) (now : Nat) (st : State) (key : String) (value : JsVal)
    (expiryInSeconds : JsVal) : State :=
  set H now st key (stringified H value) expiryInSeconds

/-- Source `oGet(key)` of `localStore`: `JSON.parse` of what `get` returns,
`none` when the parse throws. -/
def oGet (H : Host) (now : Nat) (st : State) (key : String) : State × Option JsVal :=
  let r := get H now st key
  (r.1, H.jsonParse (r.2.toStr H))

/-- Source `clear()` of `localStore`. -/
def clear (_st : State) : State := []

/-- The `name` of the store object. -/
def name : String := "localstore"

end LocalStore

/-! ## memoryStore -/

/-- An own property of a data value used as a prototype: a field of a plain
object; an index or `length` of an array. -/
def JsVal.ownProp : JsVal → String → Option JsVal
  | .obj fields, name => Slots.read fields name
  | .arr items, name =>
    if name = "length" then some (.num (.fin (items.length : ℚ)))
    else ((List.zip (List.range items.length) items).find? fun p => Nat.repr p.1 = name).map
      Prod.snd
  | _, _ => none

/-- What a read finds on a data value used as a prototype and on what it
inherits short of `Object.prototype`: its own properties and, for an array,
those of `Array.prototype`. -/
def JsVal.chainProp (H : Host) (p : JsVal) (name : String) : Option JsOut :=
  match p.ownProp name with
  | some v => some (.val v)
  | none =>
    match p with
    | .arr _ =>
      if name ∈ H.arrayPrototypeNames then some (.builtin ("Array.prototype." ++ name)) else none
    | _ => none

namespace MemoryStore

/-- The prototype of the object `store`: `Object.prototype` as `{}` sets it,
`null`, or a value installed through `__proto__`. -/
inductive Proto where
  | objectPrototype
  | null
  | installed (p : JsVal)

/-- The object `store`: its own properties and its prototype. -/
structure State where
  own : Slots JsVal
  proto : Proto

/-- The object `{}` that `memoryStore()` starts from. -/
def fresh : State := ⟨[], .objectPrototype⟩

/-- A read that reaches `Object.prototype`: the getter of `__proto__` returns
the prototype `self` of the object read from, a data property is a built-in
function, any other name is `undefined`. -/
def fromObjectPrototype (H : Host) (self : JsOut) (name : String) : JsOut :=
  if name = "__proto__" then self
  else if name ∈ H.objectPrototypeNames then .builtin ("Object.prototype." ++ name)
  else .val .undefined

/-- A read that found no own property and walks the prototype chain. -/
def inherited (H : Host) (proto : Proto) (name : String) : JsOut :=
  match proto with
  | .null => .val .undefined
  | .objectPrototype => fromObjectPrototype H (.builtin "Object.prototype") name
  | .installed p =>
    match p.chainProp H name with
    | some r => r
    | none => fromObjectPrototype H (.val p) name

/-- A property read `store[name]`. -/
def prop (H : Host) (st : State) (name : String) : JsOut :=
  match st.own.read name with
  | some v => .val v
  | none => inherited H st.proto name

/-- Whether the name `__proto__` resolves on `store` to the accessor of
`Object.prototype`: no own property and no property on the way has that name. -/
def hasProtoAccessor (H : Host) (st : State) : Bool :=
  (st.own.read "__proto__").isNone &&
    (match st.proto with
     | .objectPrototype => true
     | .null => false
     | .installed p => (p.chainProp H "__proto__").isNone)

/-- An assignment `store[name] = v`. The setter of `__proto__` replaces the
prototype by an object or by `null` and ignores any other value; every other
assignment writes an own property. -/
def assign (H : Host) (st : State) (name : String) (v : JsVal) : State :=
  if name = "__proto__" ∧ hasProtoAccessor H st = true then
    match v with
    | .null => { st with proto := .null }
    | .arr items => { st with proto := .installed (.arr items) }
    | .obj fields => { st with proto := .installed (.obj fields) }
    | _ => st
  else { st with own := st.own.write name v }

/-- Source `remove(key)` of `memoryStore`: `delete` takes own properties only. -/
def remove (st : State) (key : String) : State :=
  { st with own := (st.own.delete key).delete (expirySlot key) }

/-- Source `set(key, value, expiryInSeconds)` of `memoryStore`. -/
def set (H : Host) (now : Nat) (st : State) (key : String) (value : JsVal)
    (expiryInSeconds : JsVal) : State :=
  assign H (assign H st key value) (expirySlot key)
    (.num (expiryTime H now expiryInSeconds))

/-- Source `get(key)` of `memoryStore`. -/
def get (H : Host) (now : Nat) (st : State) (key : String) : State × JsOut :=
  let expiry := prop H st (expirySlot key)
  if !expiry.toBoolean || (expiry.toNumber H).ltNat now then (remove st key, .val .null)
  else (st, prop H st key)

/-- Exported `oSet` of `memoryStore`: the function `set` itself. -/
def oSet := set

/-- Exported `oGet` of `memoryStore`: the function `get` itself. -/
def oGet := get

/-- Source `clear()` of `memoryStore`: delete every key of `Object.keys`, the
own properties. The prototype stays. -/
def clear (st : State) : State :=
  { st with own := (Slots.keys st.own).foldl (fun s key => Slots.delete s key) st.own }

/-- The `name` of the store object. -/
def name : String := "memorystore"

end MemoryStore

/-! ## cache: choosing the store -/

/-- What a `catch` can receive. -/
inductive JsError where
  | domException (name : String)
  | other (description : String)

/-- The storage object as the probe sees it: the error `setItem` or
`removeItem` throws, if any, and the `length` property. -/
structure StorageProbe where
  setItemError : Option JsError
  removeItemError : Option JsError
  length : Nat

/-- The property `window.localStorage`: reading it throws, it holds `null`
or `undefined`, or it holds a storage object. -/
inductive Window where
  | throws (e : JsError)
  | missing
  | storage (s : StorageProbe)

/-- The first two operands of the `catch` expression of `test`. -/
def isQuotaError : JsError → Bool
  | .domException name =>
    decide (name = "QuotaExceededError") || decide (name = "NS_ERROR_DOM_QUOTA_REACHED")
  | .other _ => false

/-- The `try` block of `test` up to `return true`: the error it throws, if
any. Calling `setItem` on `null` or `undefined` throws a `TypeError`. -/
def probe : Window → Except JsError Unit
  | .throws e => .error e
  | .missing => .error (.other "TypeError")
  | .storage s =>
    match s.setItemError with
    | some e => .error e
    | none =>
      match s.removeItemError with
      | some e => .error e
      | none => .ok ()

/-- The variable `storage` when the `catch` block runs: a storage object, or
`none` for a value that is not truthy. -/
def storageOf : Window → Option StorageProbe
  | .throws _ => none
  | .missing => none
  | .storage s => some s

/-- Source `test()`: truthiness of its result. -/
def test (w : Window) : Bool :=
  match probe w with
  | .ok _ => true
  | .error e =>
    isQuotaError e &&
      (match storageOf w with
       | none => false
       | some s => decide (s.length ≠ 0))

/-- The store objects `cache()` can return. -/
inductive Store where
  | localStore
  | memoryStore
  deriving DecidableEq

/-- The `name` property of a store object. -/
def Store.name : Store → String
  | .localStore => LocalStore.name
  | .memoryStore => MemoryStore.name

/-- Source `cache()`. -/
def cache (w : Window) : Store :=
  if test w then .localStore else .memoryStore

/-! ## A reference runtime

A small `Host` on which the definitions can be evaluated. It rounds integer
results as doubles do (to nearest, ties to even) and knows integer-valued
numbers only. It prints an integer as its full decimal numeral, reads decimal
integer literals (the empty string as 0, any other text but `Infinity` as
not-a-number), and parses the JSON literals `null`, `true`, `false`, integers
and plain strings. Numerals in exponent form, texts with leading blanks,
fractions or hexadecimal digits, and the JSON texts of arrays and objects are
beyond it; the closed examples below use none of them. -/

namespace Ref

/-- Value of a decimal digit character. -/
def charDigit (c : Char) : Nat := c.toNat - 48

/-- Decimal digit characters. -/
def isDigit (c : Char) : Bool := decide (48 ≤ c.toNat) && decide (c.toNat ≤ 57)

/-- Value of a run of decimal digits. -/
def charsToNat (cs : List Char) : Nat :=
  cs.foldl (fun acc c => 10 * acc + charDigit c) 0

/-- Decimal numeral of an integer. -/
def intChars : Int → List Char
  | .ofNat m => Nat.toDigits 10 m
  | .negSucc m => '-' :: Nat.toDigits 10 (m + 1)

/-- The number of binary digits of `n`, found in at most `fuel` halvings. -/
def bitLength : Nat → Nat → Nat
  | 0, _ => 0
  | fuel + 1, n => if n = 0 then 0 else bitLength fuel (n / 2) + 1

/-- The number of binary digits of a natural number. -/
def bits (n : Nat) : Nat := bitLength n n

/-- The double nearest to a natural number, ties to the even significand: a
number below 2^53 is kept, a larger one is rounded to a multiple of the power
of two that leaves 53 binary digits. -/
def roundNat (m : Nat) : Nat :=
  if m < 2 ^ 53 then m
  else
    let ulp := 2 ^ (bits m - 53)
    let q := m / ulp
    let r := m % ulp
    if 2 * r < ulp then q * ulp
    else if ulp < 2 * r then (q + 1) * ulp
    else if q % 2 = 0 then q * ulp
    else (q + 1) * ulp

/-- Rounding of an exact integer result to a double: round to nearest, ties to
even; a result of 2^1024 or more in size is an infinity. -/
def toDouble : Int → JsInt
  | .ofNat m => if bits (roundNat m) ≤ 1024 then .int (roundNat m) else .posInf
  | .negSucc m =>
    if bits (roundNat (m + 1)) ≤ 1024 then .int (-(roundNat (m + 1) : Int)) else .negInf

/-- The integer part of a rational. -/
def floor (q : ℚ) : Int := q.num / (q.den : Int)

/-- Number to string. -/
def numberToString : JsNum → String
  | .nan => "NaN"
  | .posInf => "Infinity"
  | .negInf => "-Infinity"
  | .fin q => String.mk (intChars (floor q))

/-- Value of a decimal integer literal; the empty string is zero. -/
def charsToNumber (cs : List Char) : JsNum :=
  if cs = [] then .fin 0
  else if cs.all isDigit then .fin ((charsToNat cs : Int) : ℚ)
  else
    match cs with
    | [] => .nan
    | c :: rest =>
      if c = '-' ∧ rest ≠ [] ∧ rest.all isDigit = true
      then .fin ((-(charsToNat rest : Int) : Int) : ℚ)
      else if c :: rest = "Infinity".data then .posInf
      else if c :: rest = "-Infinity".data then .negInf
      else .nan

/-- String to number. -/
def stringToNumber (s : String) : JsNum := charsToNumber s.data

/-- Leading integer of a character sequence. -/
def parseIntChars : List Char → Option Int
  | [] => none
  | c :: rest =>
    if c = '-' then
      (if rest.takeWhile isDigit = [] then none
       else some (-(charsToNat (rest.takeWhile isDigit) : Int)))
    else if (c :: rest).takeWhile isDigit = [] then none
    else some (charsToNat ((c :: rest).takeWhile isDigit) : Int)

/-- The leading integer as a number; not-a-number when there is none. -/
def parsed : Option Int → JsInt
  | some n => .int n
  | none => .nan

/-- The built-in `Number.parseInt` on the argument's string form. -/
def parseInt : JsVal → JsInt
  | .num (.fin q) => parsed (parseIntChars (intChars (floor q)))
  | .str s => parsed (parseIntChars s.data)
  | _ => .nan

/-- A JSON string literal: quotes and backslashes escaped. -/
def quoted (s : String) : String :=
  String.mk ('"' :: (s.data.flatMap fun c =>
    if c = '"' then ['\\', '"'] else if c = '\\' then ['\\', '\\'] else [c]) ++ ['"'])

/-- The JSON text of a number: `null` unless it is finite. -/
def jsonNumber : JsNum → String
  | .fin q => numberToString (.fin q)
  | _ => "null"

mutual
/-- The JSON text of a value inside a structure, where `undefined` is written
`null`. -/
def jsonText : JsVal → String
  | .undefined => "null"
  | .null => "null"
  | .bool true => "true"
  | .bool false => "false"
  | .num x => jsonNumber x
  | .str s => quoted s
  | .arr items => "[" ++ jsonItems items ++ "]"
  | .obj fields => "\x7b" ++ jsonFields fields ++ "\x7d"
/-- The items of an array, separated by commas. -/
def jsonItems : List JsVal → String
  | [] => ""
  | [v] => jsonText v
  | v :: w :: rest => jsonText v ++ "," ++ jsonItems (w :: rest)
/-- The members of an object, separated by commas. -/
def jsonFields : List (String × JsVal) → String
  | [] => ""
  | [(k, v)] => quoted k ++ ":" ++ jsonText v
  | (k, v) :: f :: rest => quoted k ++ ":" ++ jsonText v ++ "," ++ jsonFields (f :: rest)
end

/-- The built-in `JSON.stringify`: no text for `undefined`. -/
def jsonStringify : JsVal → Option String
  | .undefined => none
  | v => some (jsonText v)

mutual
/-- The string form of a value; an array joins its items with commas. -/
def text : JsVal → String
  | .undefined => "undefined"
  | .null => "null"
  | .bool true => "true"
  | .bool false => "false"
  | .num x => numberToString x
  | .str s => s
  | .arr items => joined items
  | .obj _ => "[object Object]"
/-- The items of an array as `join` writes them: nothing for `null` and
`undefined`. -/
def joined : List JsVal → String
  | [] => ""
  | [.null] => ""
  | [.undefined] => ""
  | [v] => text v
  | .null :: w :: rest => "," ++ joined (w :: rest)
  | .undefined :: w :: rest => "," ++ joined (w :: rest)
  | v :: w :: rest => text v ++ "," ++ joined (w :: rest)
end

/-- The JSON value of a literal text: `null`, `true`, `false`, an integer, or a
string without escapes. Any other text is rejected. -/
def jsonParse (s : String) : Option JsVal :=
  if s = "null" then some .null
  else if s = "true" then some (.bool true)
  else if s = "false" then some (.bool false)
  else
    match parseIntChars s.data with
    | some n => if intChars n = s.data then some (.num (.fin (n : ℚ))) else none
    | none =>
      match s.data with
      | [] => none
      | c :: rest =>
        if c = '"' ∧ rest.getLast? = some '"' ∧
            rest.dropLast.all (fun d => decide (d ≠ '"' ∧ d ≠ '\\' ∧ 32 ≤ d.toNat)) = true
        then some (.str (String.mk rest.dropLast)) else none

/-- The string form of a built-in object. -/
def builtinToString (name : String) : String :=
  if name = "Object.prototype" then "[object Object]"
  else "function () \x7b [native code] \x7d"

end Ref

/-- The reference runtime. The prototype member names are those of
ECMAScript 2023, Annex B included. -/
def refHost : Host where
  toDouble := Ref.toDouble
  numberToString := Ref.numberToString
  stringToNumber := Ref.stringToNumber
  objectToString := Ref.text
  builtinToString := Ref.builtinToString
  parseInt := Ref.parseInt
  jsonStringify := Ref.jsonStringify
  jsonParse := Ref.jsonParse
  objectPrototypeNames :=
    ["constructor", "__defineGetter__", "__defineSetter__", "hasOwnProperty",
      "__lookupGetter__", "__lookupSetter__", "isPrototypeOf", "propertyIsEnumerable",
      "toString", "valueOf", "toLocaleString"]
  arrayPrototypeNames :=
    ["constructor", "at", "concat", "copyWithin", "fill", "find", "findIndex", "findLast",
      "findLastIndex", "lastIndexOf", "pop", "push", "reverse", "shift", "unshift", "slice",
      "sort", "splice", "includes", "indexOf", "join", "keys", "entries", "values", "forEach",
      "filter", "flat", "flatMap", "map", "every", "some", "reduce", "reduceRight",
      "toLocaleString", "toString", "toReversed", "toSorted", "toSpliced", "with"]

/-! ## Sequences of calls -/

/-- A call on a store object. -/
inductive Op where
  | set (key : String) (value expiryInSeconds : JsVal)
  | get (key : String)
  | oSet (key : String) (value expiryInSeconds : JsVal)
  | oGet (key : String)
  | remove (key : String)
  | clear

/-- What a call hands back: nothing, a value, or a thrown error. -/
inductive Outcome where
  | done
  | value (v : JsOut)
  | thrown

/-- One call on `localStore` at a clock reading. -/
def LocalStore.step (H : Host) (st : LocalStore.State) : Nat × Op → LocalStore.State × Outcome
  | (now, .set key value e) => (LocalStore.set H now st key value e, .done)
  | (now, .get key) =>
    ((LocalStore.get H now st key).1, .value (.val (LocalStore.get H now st key).2))
  | (now, .oSet key value e) => (LocalStore.oSet H now st key value e, .done)
  | (now, .oGet key) =>
    ((LocalStore.oGet H now st key).1,
      match (LocalStore.oGet H now st key).2 with
      | some v => .value (.val v)
      | none => .thrown)
  | (_, .remove key) => (LocalStore.remove st key, .done)
  | (_, .clear) => (LocalStore.clear st, .done)

/-- One call on `memoryStore` at a clock reading. -/
def MemoryStore.step (H : Host) (st : MemoryStore.State) : Nat × Op → MemoryStore.State × Outcome
  | (now, .set key value e) => (MemoryStore.set H now st key value e, .done)
  | (now, .get key) => ((MemoryStore.get H now st key).1, .value (MemoryStore.get H now st key).2)
  | (now, .oSet key value e) => (MemoryStore.oSet H now st key value e, .done)
  | (now, .oGet key) =>
    ((MemoryStore.oGet H now st key).1, .value (MemoryStore.oGet H now st key).2)
  | (_, .remove key) => (MemoryStore.remove st key, .done)
  | (_, .clear) => (MemoryStore.clear st, .done)

/-- The contents of `localStorage` after a sequence of calls. -/
def LocalStore.run (H : Host) (st : LocalStore.State) (ops : List (Nat × Op)) : LocalStore.State :=
  ops.foldl (fun s op => (LocalStore.step H s op).1) st

/-- The object `store` after a sequence of calls. -/
def MemoryStore.run (H : Host) (st : MemoryStore.State) (ops : List (Nat × Op)) :
    MemoryStore.State :=
  ops.foldl (fun s op => (MemoryStore.step H s op).1) st

/-- What each call of a sequence on `localStore` hands back. -/
def LocalStore.outcomes (H : Host) (st : LocalStore.State) : List (Nat × Op) → List Outcome
  | [] => []
  | op :: rest => (LocalStore.step H st op).2 :: LocalStore.outcomes H (LocalStore.step H st op).1 rest

/-- What each call of a sequence on `memoryStore` hands back. -/
def MemoryStore.outcomes (H : Host) (st : MemoryStore.State) : List (Nat × Op) → List Outcome
  | [] => []
  | op :: rest =>
    (MemoryStore.step H st op).2 :: MemoryStore.outcomes H (MemoryStore.step H st op).1 rest

/-- The key whose entry a call writes: `set` and `oSet` write, the other calls
do not. -/
def Op.setKey : Op → Option String
  | .set key _ _ => some key
  | .oSet key _ _ => some key
  | _ => none

/-- The key a call names; `clear` names none. -/
def Op.key : Op → Option String
  | .set key _ _ => some key
  | .get key => some key
  | .oSet key _ _ => some key
  | .oGet key => some key
  | .remove key => some key
  | .clear => none

/-! ## Relating the two stores -/

/-- The calls that neither store serialises: `set` with a string value, `get`,
`remove` and `clear`. -/
def Op.plain : Op → Bool
  | .set _ (.str _) _ => true
  | .get _ => true
  | .remove _ => true
  | .clear => true
  | _ => false

/-- A call that does not name `__proto__` or one of the given names. -/
def Op.avoids (names : List String) (op : Op) : Prop :=
  ∀ key, op.key = some key → key ≠ "__proto__" ∧ key ∉ names

/-- The form in which `localStore` hands back a data value that `memoryStore`
hands back: `null` for `null` and `undefined`, the string form for any other
value. -/
def JsVal.asStored (H : Host) : JsVal → JsVal
  | .undefined => .null
  | .null => .null
  | v => .str (v.toStr H)

/-- The same on what a read returned. -/
def JsOut.asStored (H : Host) : JsOut → JsOut
  | .val v => .val (v.asStored H)
  | .builtin name => .val (.str (H.builtinToString name))

/-- The same on the outcome of a call. -/
def Outcome.asStored (H : Host) : Outcome → Outcome
  | .value v => .value (v.asStored H)
  | .done => .done
  | .thrown => .thrown

/-- The object `store` still has the prototype `{}` gave it. -/
def MemoryStore.Pristine (st : MemoryStore.State) : Prop := st.proto = .objectPrototype

/-- The medium holds the string forms of the own properties of a pristine
object, which are strings or truthy numbers the runtime can hold. -/
def Sim (H : Host) (ls : LocalStore.State) (ms : MemoryStore.State) : Prop :=
  MemoryStore.Pristine ms ∧
  ∀ x, Slots.read ls x = (Slots.read ms.own x).map (JsVal.toStr H) ∧
    ∀ v, Slots.read ms.own x = some v →
      (∃ t, v = .str t) ∨ (∃ n : JsInt, v = .num n.toNum ∧ H.IsDouble n ∧ n.toNum.toBoolean = true)

/-! ## Keys that share no slot -/

/-- The entries of `j` and `k` share no slot: `j` is not `k`, `j` is not the
expiry slot of `k`, and the expiry slot of `j` is not `k`. -/
def apart (j k : String) : Prop := j ≠ k ∧ j ≠ expirySlot k ∧ expirySlot j ≠ k

/-- A call that is no `set` or `oSet` on `k` and names no key sharing a slot
with `k`: a `set` or `oSet` on a key apart from `k`; a `get`, `oGet` or
`remove` on `k` itself or on a key apart from `k`; `clear`. -/
def Op.keepsAway (k : String) : Op → Prop
  | .set j _ _ => apart j k
  | .oSet j _ _ => apart j k
  | .get j => j = k ∨ apart j k
  | .oGet j => j = k ∨ apart j k
  | .remove j => j = k ∨ apart j k
  | .clear => True

/-- A state of the medium in which `get(k)` returns `null` at every clock
reading: the expiry slot is absent or empty, or the value slot is absent. -/
def LocalStore.Dormant (st : LocalStore.State) (k : String) : Prop :=
  Slots.read st (expirySlot k) = none ∨ Slots.read st (expirySlot k) = some "" ∨
    Slots.read st k = none

/-- A state of the object in which `get(k)` returns `null` at every clock
reading: the expiry property is not truthy, or the value property is `null`. -/
def MemoryStore.Dormant (H : Host) (st : MemoryStore.State) (k : String) : Prop :=
  (MemoryStore.prop H st (expirySlot k)).toBoolean = false ∨
    MemoryStore.prop H st k = .val .null

/-! # Theorems -/

/-! ## Slot names -/

theorem expirySlot_ne (key : String) : expirySlot key ≠ key := by
  intro h
  have h1 := congrArg String.length h
  simp [expirySlot, String.length_append] at h1
  have h2 : "_expiry".length = 7 := by decide
  omega

theorem expirySlot_inj {a b : String} (h : expirySlot a = expirySlot b) : a = b := by
  have h1 := congrArg String.data h
  simp only [expirySlot, String.data_append] at h1
  exact String.ext (List.append_cancel_right h1)

theorem expirySlot_ends (key : String) :
    (expirySlot key).data.reverse.take 7 = "_expiry".data.reverse := by
  simp only [expirySlot, String.data_append, List.reverse_append]
  rw [List.take_append_of_le_length (by decide)]
  rfl

theorem expirySlot_ne_proto (key : String) : expirySlot key ≠ "__proto__" := by
  intro h
  have h1 := expirySlot_ends key
  rw [h] at h1
  exact absurd h1 (by decide)

/-! ## The reference runtime is lawful -/

namespace Ref

theorem digitChar_isDigit (d : Nat) (h : d < 10) : isDigit (Nat.digitChar d) = true := by
  interval_cases d <;> rfl

theorem charDigit_digitChar (d : Nat) (h : d < 10) : charDigit (Nat.digitChar d) = d := by
  interval_cases d <;> rfl

theorem toDigitsCore_all (fuel : Nat) : ∀ (n : Nat) (ds : List Char),
    ds.all isDigit = true → (Nat.toDigitsCore 10 fuel n ds).all isDigit = true := by
  induction fuel with
  | zero => intro n ds h; simpa [Nat.toDigitsCore] using h
  | succ fuel ih =>
    intro n ds h
    have hd : isDigit (Nat.digitChar (n % 10)) = true :=
      digitChar_isDigit _ (Nat.mod_lt _ (by decide))
    simp only [Nat.toDigitsCore]
    split
    · simp [hd, h]
    · exact ih _ _ (by simp [hd, h])

theorem toDigitsCore_value (fuel : Nat) : ∀ (n : Nat) (ds : List Char), n < fuel →
    (Nat.toDigitsCore 10 fuel n ds).foldl (fun acc c => 10 * acc + charDigit c) 0
      = ds.foldl (fun acc c => 10 * acc + charDigit c) n := by
  induction fuel with
  | zero => intro n ds h; omega
  | succ fuel ih =>
    intro n ds h
    have hd : charDigit (Nat.digitChar (n % 10)) = n % 10 :=
      charDigit_digitChar _ (Nat.mod_lt _ (by decide))
    simp only [Nat.toDigitsCore]
    split
    · rename_i h0
      have : n % 10 = n := by omega
      simp only [List.foldl_cons, Nat.mul_zero, Nat.zero_add, hd]
      rw [this]
    · rename_i h0
      rw [ih (n / 10) _ (by omega)]
      have : 10 * (n / 10) + n % 10 = n := Nat.div_add_mod n 10
      simp only [List.foldl_cons, hd]
      rw [this]

theorem toDigitsCore_ne_nil (fuel : Nat) : ∀ (n : Nat) (ds : List Char),
    ds ≠ [] → Nat.toDigitsCore 10 fuel n ds ≠ [] := by
  induction fuel with
  | zero => intro n ds h; simpa [Nat.toDigitsCore] using h
  | succ fuel ih =>
    intro n ds h
    simp only [Nat.toDigitsCore]
    split
    · simp
    · exact ih _ _ (by simp)

theorem toDigits_ne_nil (m : Nat) : Nat.toDigits 10 m ≠ [] := by
  simp only [Nat.toDigits, Nat.toDigitsCore]
  split
  · simp
  · exact toDigitsCore_ne_nil _ _ _ (by simp)

theorem toDigits_all (m : Nat) : (Nat.toDigits 10 m).all isDigit = true :=
  toDigitsCore_all _ _ _ (by simp)

theorem charsToNat_toDigits (m : Nat) : charsToNat (Nat.toDigits 10 m) = m := by
  simp [charsToNat, Nat.toDigits, toDigitsCore_value (m + 1) m [] (by omega)]

theorem intChars_ne_nil (n : Int) : intChars n ≠ [] := by
  cases n with
  | ofNat m => exact toDigits_ne_nil m
  | negSucc m => simp [intChars]

theorem charsToNumber_intChars (n : Int) : charsToNumber (intChars n) = .fin (n : ℚ) := by
  cases n with
  | ofNat m =>
    simp [charsToNumber, intChars, toDigits_ne_nil, toDigits_all, charsToNat_toDigits]
  | negSucc m =>
    have h1 : isDigit '-' = false := by rfl
    simp [charsToNumber, intChars, toDigits_ne_nil, toDigits_all, charsToNat_toDigits, h1,
      Int.negSucc_eq]

theorem takeWhile_of_all (cs : List Char) (h : cs.all isDigit = true) :
    cs.takeWhile isDigit = cs := by
  induction cs with
  | nil => rfl
  | cons c rest ih =>
    simp only [List.all_cons, Bool.and_eq_true] at h
    simp [List.takeWhile, h.1, ih h.2]

theorem parseIntChars_toDigits (m : Nat) :
    parseIntChars (Nat.toDigits 10 m) = some (m : Int) := by
  have hall := toDigits_all m
  have hne := toDigits_ne_nil m
  have hval := charsToNat_toDigits m
  generalize Nat.toDigits 10 m = cs at hall hne hval
  cases cs with
  | nil => exact absurd rfl hne
  | cons c rest =>
    have hc : c ≠ '-' := by
      intro hc
      subst hc
      simp only [List.all_cons, Bool.and_eq_true] at hall
      exact absurd hall.1 (by decide)
    have htw := takeWhile_of_all _ hall
    simp only [parseIntChars, hc, if_false, htw, hval]
    simp

theorem floor_intCast (n : Int) : floor (n : ℚ) = n := by
  simp [floor]

theorem numberToString_data (x : JsInt) :
    (numberToString x.toNum).data ≠ [] ∧ charsToNumber (numberToString x.toNum).data = x.toNum := by
  cases x with
  | nan => exact ⟨by decide, by rfl⟩
  | negInf => exact ⟨by decide, by rfl⟩
  | posInf => exact ⟨by decide, by rfl⟩
  | int n =>
    simp only [JsInt.toNum, numberToString, floor_intCast]
    exact ⟨intChars_ne_nil n, charsToNumber_intChars n⟩

/-! ### Rounding -/

theorem bitLength_zero (fuel : Nat) : bitLength fuel 0 = 0 := by
  cases fuel <;> simp [bitLength]

theorem bitLength_spec (fuel : Nat) : ∀ n : Nat, n ≤ fuel → n ≠ 0 →
    1 ≤ bitLength fuel n ∧ 2 ^ (bitLength fuel n - 1) ≤ n ∧ n < 2 ^ bitLength fuel n := by
  induction fuel with
  | zero => intro n h h0; omega
  | succ f ih =>
    intro n h h0
    simp only [bitLength, h0, if_false]
    by_cases h2 : n / 2 = 0
    · rw [h2, bitLength_zero]
      have : n = 1 := by omega
      subst this
      simp
    · obtain ⟨hb, hlo, hhi⟩ := ih (n / 2) (by omega) h2
      refine ⟨by omega, ?_, ?_⟩
      · have e : bitLength f (n / 2) + 1 - 1 = (bitLength f (n / 2) - 1) + 1 := by omega
        rw [e, pow_succ]
        omega
      · rw [pow_succ]
        omega

theorem bits_zero : bits 0 = 0 := rfl

theorem bits_spec (n : Nat) (h : n ≠ 0) :
    1 ≤ bits n ∧ 2 ^ (bits n - 1) ≤ n ∧ n < 2 ^ bits n :=
  bitLength_spec n n (Nat.le_refl n) h

theorem bits_le_iff (n k : Nat) : bits n ≤ k ↔ n < 2 ^ k := by
  by_cases h : n = 0
  · subst h; simp [bits_zero]
  · obtain ⟨h1, hlo, hhi⟩ := bits_spec n h
    constructor
    · intro hk
      exact lt_of_lt_of_le hhi (Nat.pow_le_pow_right (by decide) hk)
    · intro hk
      by_contra hc
      have : 2 ^ k ≤ 2 ^ (bits n - 1) := Nat.pow_le_pow_right (by decide) (by omega)
      omega

theorem bits_mono {m n : Nat} (h : m ≤ n) : bits m ≤ bits n := by
  rw [bits_le_iff]
  by_cases h0 : n = 0
  · subst h0
    have : m = 0 := by omega
    subst this; simp
  · exact lt_of_le_of_lt h (bits_spec n h0).2.2

/-- The binary digits of a number with `k` digits shifted by `e`. -/
theorem bits_eq_of_bounds (n b : Nat) (hb : 1 ≤ b) (hlo : 2 ^ (b - 1) ≤ n) (hhi : n < 2 ^ b) :
    bits n = b := by
  apply le_antisymm
  · rw [bits_le_iff]; exact hhi
  · by_contra hc
    have h1 : bits n ≤ b - 1 := by omega
    rw [bits_le_iff] at h1
    omega


theorem roundNat_small (m : Nat) (h : m < 2 ^ 53) : roundNat m = m := by
  unfold roundNat
  rw [if_pos h]

theorem bits_large (m : Nat) (h : 2 ^ 53 ≤ m) : 54 ≤ bits m := by
  by_contra hc
  have h1 : bits m ≤ 53 := by omega
  rw [bits_le_iff] at h1
  omega

theorem pow_bits_split (m : Nat) (h : 2 ^ 53 ≤ m) :
    2 ^ (bits m - 1) = 2 ^ 52 * 2 ^ (bits m - 53) ∧ 2 ^ bits m = 2 ^ 53 * 2 ^ (bits m - 53) := by
  have hb := bits_large m h
  constructor
  · rw [← pow_add]; congr 1; omega
  · rw [← pow_add]; congr 1; omega

/-- The significand of a number of at least 54 binary digits has 53. -/
theorem significand_bounds (m : Nat) (h : 2 ^ 53 ≤ m) :
    2 ^ 52 ≤ m / 2 ^ (bits m - 53) ∧ m / 2 ^ (bits m - 53) < 2 ^ 53 := by
  have h0 : m ≠ 0 := by
    have : 0 < 2 ^ 53 := by positivity
    omega
  obtain ⟨_, hlo, hhi⟩ := bits_spec m h0
  obtain ⟨e1, e2⟩ := pow_bits_split m h
  have hU : 0 < 2 ^ (bits m - 53) := by positivity
  constructor
  · rw [Nat.le_div_iff_mul_le hU, ← e1]; exact hlo
  · rw [Nat.div_lt_iff_lt_mul hU, ← e2]; exact hhi

theorem roundNat_cases (m : Nat) (h : 2 ^ 53 ≤ m) :
    roundNat m = m / 2 ^ (bits m - 53) * 2 ^ (bits m - 53) ∨
      roundNat m = (m / 2 ^ (bits m - 53) + 1) * 2 ^ (bits m - 53) := by
  unfold roundNat
  rw [if_neg (by omega)]
  simp only
  split_ifs
  · exact Or.inl rfl
  · exact Or.inr rfl
  · exact Or.inl rfl
  · exact Or.inr rfl

theorem roundNat_lower (m : Nat) (h : 2 ^ 53 ≤ m) : 2 ^ (bits m - 1) ≤ roundNat m := by
  obtain ⟨hq, _⟩ := significand_bounds m h
  rw [(pow_bits_split m h).1]
  have h1 : 2 ^ 52 * 2 ^ (bits m - 53) ≤ m / 2 ^ (bits m - 53) * 2 ^ (bits m - 53) :=
    Nat.mul_le_mul_right _ hq
  rcases roundNat_cases m h with e | e <;> rw [e]
  · exact h1
  · exact le_trans h1 (Nat.mul_le_mul_right _ (Nat.le_succ _))

theorem roundNat_upper (m : Nat) (h : 2 ^ 53 ≤ m) : roundNat m ≤ 2 ^ bits m := by
  obtain ⟨_, hq⟩ := significand_bounds m h
  rw [(pow_bits_split m h).2]
  rcases roundNat_cases m h with e | e <;> rw [e]
  · exact Nat.mul_le_mul_right _ (by omega)
  · exact Nat.mul_le_mul_right _ (by omega)

theorem roundNat_mono {m n : Nat} (h : m ≤ n) : roundNat m ≤ roundNat n := by
  by_cases hn : n < 2 ^ 53
  · rw [roundNat_small n hn, roundNat_small m (by omega)]; exact h
  · have hn2 : 2 ^ 53 ≤ n := by omega
    have hbn := bits_large n hn2
    have hln := roundNat_lower n hn2
    by_cases hm : m < 2 ^ 53
    · rw [roundNat_small m hm]
      have : 2 ^ 53 ≤ 2 ^ (bits n - 1) := Nat.pow_le_pow_right (by decide) (by omega)
      omega
    · have hm2 : 2 ^ 53 ≤ m := by omega
      have hbm := bits_large m hm2
      have hb := bits_mono h
      by_cases hlt : bits m < bits n
      · have hum := roundNat_upper m hm2
        have : 2 ^ bits m ≤ 2 ^ (bits n - 1) := Nat.pow_le_pow_right (by decide) (by omega)
        omega
      · have hbe : bits m = bits n := by omega
        have hU : 0 < 2 ^ (bits n - 53) := by positivity
        have hq : m / 2 ^ (bits n - 53) ≤ n / 2 ^ (bits n - 53) := Nat.div_le_div_right h
        have hdm := Nat.div_add_mod m (2 ^ (bits n - 53))
        have hdn := Nat.div_add_mod n (2 ^ (bits n - 53))
        have hrm := Nat.mod_lt m hU
        have hrn := Nat.mod_lt n hU
        by_cases hql : m / 2 ^ (bits n - 53) < n / 2 ^ (bits n - 53)
        · have h1 : roundNat m ≤ (m / 2 ^ (bits n - 53) + 1) * 2 ^ (bits n - 53) := by
            rcases roundNat_cases m hm2 with e | e <;> rw [e, hbe]
            exact Nat.mul_le_mul_right _ (Nat.le_succ _)
          have h2 : n / 2 ^ (bits n - 53) * 2 ^ (bits n - 53) ≤ roundNat n := by
            rcases roundNat_cases n hn2 with e | e <;> rw [e]
            exact Nat.mul_le_mul_right _ (Nat.le_succ _)
          have h3 : (m / 2 ^ (bits n - 53) + 1) * 2 ^ (bits n - 53)
              ≤ n / 2 ^ (bits n - 53) * 2 ^ (bits n - 53) := Nat.mul_le_mul_right _ hql
          omega
        · have hqe : m / 2 ^ (bits n - 53) = n / 2 ^ (bits n - 53) := by omega
          have hr : m % 2 ^ (bits n - 53) ≤ n % 2 ^ (bits n - 53) := by
            rw [hqe] at hdm
            rw [Nat.mul_comm] at hdm hdn
            omega
          have hsucc : (n / 2 ^ (bits n - 53) + 1) * 2 ^ (bits n - 53)
              = n / 2 ^ (bits n - 53) * 2 ^ (bits n - 53) + 2 ^ (bits n - 53) := by ring
          unfold roundNat
          rw [if_neg hm, if_neg hn]
          simp only [hbe, hqe]
          rw [hsucc]
          split_ifs <;> omega

/-- A number with a significand of 53 binary digits is kept. -/
theorem roundNat_grid (k e : Nat) (h1 : 2 ^ 52 ≤ k) (h2 : k < 2 ^ 53) :
    roundNat (k * 2 ^ e) = k * 2 ^ e := by
  cases e with
  | zero => rw [pow_zero, Nat.mul_one]; exact roundNat_small k h2
  | succ e =>
    have hU : 0 < 2 ^ (e + 1) := by positivity
    have hb : bits (k * 2 ^ (e + 1)) = 53 + (e + 1) := by
      apply bits_eq_of_bounds _ _ (by omega)
      · have h3 : 53 + (e + 1) - 1 = 52 + (e + 1) := by omega
        have h4 : 2 ^ (52 + (e + 1)) = 2 ^ 52 * 2 ^ (e + 1) := pow_add 2 52 (e + 1)
        rw [h3, h4]
        exact Nat.mul_le_mul_right _ h1
      · have h4 : 2 ^ (53 + (e + 1)) = 2 ^ 53 * 2 ^ (e + 1) := pow_add 2 53 (e + 1)
        rw [h4]
        exact Nat.mul_lt_mul_of_pos_right h2 hU
    have hbig : ¬ k * 2 ^ (e + 1) < 2 ^ 53 := by
      have h3 : 2 ^ 52 * 2 ^ (e + 1) ≤ k * 2 ^ (e + 1) := Nat.mul_le_mul_right _ h1
      have h4 : 2 ^ 52 * 2 ^ 1 ≤ 2 ^ 52 * 2 ^ (e + 1) :=
        Nat.mul_le_mul_left _ (Nat.pow_le_pow_right (by decide) (by omega))
      have h5 : (2 : Nat) ^ 52 * 2 ^ 1 = 2 ^ 53 := by norm_num
      omega
    unfold roundNat
    rw [if_neg hbig]
    have he : 53 + (e + 1) - 53 = e + 1 := by omega
    simp only [hb, he, Nat.mul_div_cancel _ hU, Nat.mul_mod_left, Nat.mul_zero]
    rw [if_pos hU]

theorem roundNat_idem (m : Nat) : roundNat (roundNat m) = roundNat m := by
  by_cases hm : m < 2 ^ 53
  · rw [roundNat_small m hm, roundNat_small m hm]
  · have hm2 : 2 ^ 53 ≤ m := by omega
    obtain ⟨hq1, hq2⟩ := significand_bounds m hm2
    rcases roundNat_cases m hm2 with e | e <;> rw [e]
    · exact roundNat_grid _ _ hq1 hq2
    · by_cases hk : m / 2 ^ (bits m - 53) + 1 < 2 ^ 53
      · exact roundNat_grid _ _ (by omega) hk
      · have hk2 : m / 2 ^ (bits m - 53) + 1 = 2 ^ 52 * 2 := by
          have : (2 : Nat) ^ 52 * 2 = 2 ^ 53 := by norm_num
          omega
        rw [hk2, Nat.mul_assoc, ← pow_succ']
        exact roundNat_grid _ _ (Nat.le_refl _) (by norm_num)

theorem roundNat_pos (m : Nat) (h : 0 < m) : 0 < roundNat m := by
  by_cases hm : m < 2 ^ 53
  · rw [roundNat_small m hm]; exact h
  · have := roundNat_lower m (by omega)
    have : 0 < 2 ^ (bits m - 1) := by positivity
    omega

theorem roundNat_two_pow_53 : roundNat (2 ^ 53) = 2 ^ 53 := by
  have h := roundNat_grid (2 ^ 52) 1 (Nat.le_refl _) (by norm_num)
  have e : (2 : Nat) ^ 52 * 2 ^ 1 = 2 ^ 53 := by norm_num
  rwa [e] at h

theorem roundNat_le_two_pow_53 (m : Nat) (h : m ≤ 2 ^ 53) : roundNat m = m := by
  by_cases hm : m < 2 ^ 53
  · exact roundNat_small m hm
  · have : m = 2 ^ 53 := by omega
    rw [this]; exact roundNat_two_pow_53

theorem bits_le_of_le_two_pow_53 (m : Nat) (h : m ≤ 2 ^ 53) : bits m ≤ 1024 := by
  have h1 : bits m ≤ 54 := by
    rw [bits_le_iff]
    have : (2 : Nat) ^ 53 < 2 ^ 54 := by norm_num
    omega
  omega

theorem ref_toDouble_int (n : Int) (h : |n| ≤ 2 ^ 53) : toDouble n = .int n := by
  cases n with
  | ofNat m =>
    have hm : m ≤ 2 ^ 53 := by
      have : ((m : Int)) ≤ 2 ^ 53 := le_trans (le_abs_self _) h
      exact_mod_cast this
    simp only [toDouble]
    rw [roundNat_le_two_pow_53 m hm, if_pos (bits_le_of_le_two_pow_53 m hm)]
    rfl
  | negSucc m =>
    have hm : m + 1 ≤ 2 ^ 53 := by
      have h1 : -(Int.negSucc m) ≤ 2 ^ 53 := le_trans (neg_le_abs _) h
      rw [Int.neg_negSucc] at h1
      exact_mod_cast h1
    simp only [toDouble]
    rw [roundNat_le_two_pow_53 (m + 1) hm, if_pos (bits_le_of_le_two_pow_53 (m + 1) hm)]
    rfl

theorem ref_toDouble_mono (m n : Int) (h : m ≤ n) : (toDouble m).le (toDouble n) := by
  cases m with
  | ofNat a =>
    cases n with
    | ofNat b =>
      have hab : a ≤ b := Int.ofNat_le.mp h
      have hr := roundNat_mono hab
      simp only [toDouble]
      by_cases hb : bits (roundNat b) ≤ 1024
      · rw [if_pos hb, if_pos (le_trans (bits_mono hr) hb)]
        show (roundNat a : Int) ≤ (roundNat b : Int)
        exact_mod_cast hr
      · rw [if_neg hb]
        split_ifs <;> trivial
    | negSucc b =>
      exact absurd h (by
        have h1 := Int.negSucc_lt_zero b
        have h2 : (0 : Int) ≤ Int.ofNat a := Int.ofNat_nonneg a
        omega)
  | negSucc a =>
    cases n with
    | ofNat b =>
      simp only [toDouble]
      split_ifs
      · show -(roundNat (a + 1) : Int) ≤ (roundNat b : Int)
        omega
      · trivial
      · trivial
      · trivial
    | negSucc b =>
      have hba : b + 1 ≤ a + 1 := by
        have h1 : Int.negSucc a ≤ Int.negSucc b := h
        rw [Int.negSucc_eq, Int.negSucc_eq] at h1
        omega
      have hr := roundNat_mono hba
      simp only [toDouble]
      by_cases ha : bits (roundNat (a + 1)) ≤ 1024
      · rw [if_pos ha, if_pos (le_trans (bits_mono hr) ha)]
        show -(roundNat (a + 1) : Int) ≤ -(roundNat (b + 1) : Int)
        omega
      · rw [if_neg ha]
        split_ifs <;> trivial

theorem ref_toDouble_idem (n : Int) :
    match toDouble n with
    | .int k => toDouble k = .int k
    | _ => True := by
  cases n with
  | ofNat m =>
    simp only [toDouble]
    by_cases hb : bits (roundNat m) ≤ 1024
    · rw [if_pos hb]
      show toDouble (Int.ofNat (roundNat m)) = _
      simp only [toDouble]
      rw [roundNat_idem, if_pos hb]
    · rw [if_neg hb]
      trivial
  | negSucc m =>
    simp only [toDouble]
    by_cases hb : bits (roundNat (m + 1)) ≤ 1024
    · rw [if_pos hb]
      have hpos := roundNat_pos (m + 1) (by omega)
      have e : -(roundNat (m + 1) : Int) = Int.negSucc (roundNat (m + 1) - 1) := by
        rw [Int.negSucc_eq]
        omega
      show toDouble (-(roundNat (m + 1) : Int)) = _
      rw [e]
      simp only [toDouble]
      have e2 : roundNat (m + 1) - 1 + 1 = roundNat (m + 1) := by omega
      rw [e2, roundNat_idem, if_pos hb, e]
    · rw [if_neg hb]
      trivial

end Ref

theorem refHost_lawful : refHost.Lawful where
  toDouble_int := Ref.ref_toDouble_int
  toDouble_mono := Ref.ref_toDouble_mono
  toDouble_isDouble := by
    intro n
    have h := Ref.ref_toDouble_idem n
    show Host.IsDouble refHost (Ref.toDouble n)
    cases hd : Ref.toDouble n with
    | int k => rw [hd] at h; exact h
    | nan => trivial
    | negInf => trivial
    | posInf => trivial
  numberToString_ne_empty := by
    intro x _ h
    exact (Ref.numberToString_data x).1 (congrArg String.data h)
  stringToNumber_numberToString := fun x _ => (Ref.numberToString_data x).2
  parseInt_undefined := rfl
  parseInt_num_pos := by
    intro t ht
    refine ⟨t, ?_, ht, le_refl t⟩
    obtain ⟨m, rfl⟩ := Int.eq_ofNat_of_zero_le (by omega : 0 ≤ t)
    show Ref.parsed (Ref.parseIntChars (Ref.intChars (Ref.floor ((m : Int) : ℚ)))) = _
    rw [Ref.floor_intCast]
    show Ref.parsed (Ref.parseIntChars (Nat.toDigits 10 m)) = _
    rw [Ref.parseIntChars_toDigits]
    rfl
  jsonParse_null := rfl
  objectPrototype_no_expiry := by
    intro key h
    have h1 := expirySlot_ends key
    have h2 : ∀ name ∈ refHost.objectPrototypeNames,
        name.data.reverse.take 7 ≠ "_expiry".data.reverse := by decide
    exact h2 _ h h1

/-! ## Slots -/

namespace Slots

variable {α : Type}

theorem read_write_same (s : Slots α) (k : String) (v : α) : read (write s k v) k = some v := by
  induction s with
  | nil => simp [write, read]
  | cons p rest ih =>
    obtain ⟨x, w⟩ := p
    by_cases h : x = k <;> simp [write, read, h, ih]

theorem read_write_ne (s : Slots α) {k j : String} (v : α) (h : k ≠ j) :
    read (write s k v) j = read s j := by
  induction s with
  | nil => simp [write, read, h]
  | cons p rest ih =>
    obtain ⟨x, w⟩ := p
    by_cases hx : x = k
    · subst hx; simp [write, read, h]
    · by_cases hj : x = j
      · subst hj; simp [write, read, hx]
      · simp [write, read, hx, hj, ih]

theorem read_delete_same (s : Slots α) (k : String) : read (delete s k) k = none := by
  induction s with
  | nil => simp [delete, read]
  | cons p rest ih =>
    obtain ⟨x, w⟩ := p
    by_cases h : x = k <;> simp [delete, read, h, ih]

theorem read_delete_ne (s : Slots α) {k j : String} (h : k ≠ j) :
    read (delete s k) j = read s j := by
  induction s with
  | nil => simp [delete, read]
  | cons p rest ih =>
    obtain ⟨x, w⟩ := p
    by_cases hx : x = k
    · subst hx; simp [delete, read, h, ih]
    · by_cases hj : x = j
      · subst hj; simp [delete, read, hx]
      · simp [delete, read, hx, hj, ih]

theorem write_write_same (s : Slots α) (k : String) (a b : α) :
    write (write s k a) k b = write s k b := by
  induction s with
  | nil => simp [write]
  | cons p rest ih =>
    obtain ⟨x, w⟩ := p
    by_cases h : x = k <;> simp [write, h, ih]

theorem write_comm_of_present (s : Slots α) {k j : String} (a b : α) (h : k ≠ j)
    (hk : read s k ≠ none) : write (write s j a) k b = write (write s k b) j a := by
  induction s with
  | nil => simp [read] at hk
  | cons p rest ih =>
    obtain ⟨x, w⟩ := p
    by_cases hxj : x = j
    · subst hxj
      have hxk : ¬ x = k := fun e => h e.symm
      simp [write, hxk]
    · by_cases hxk : x = k
      · subst hxk; simp [write, hxj]
      · have hk2 : read rest k ≠ none := by simpa [read, hxk] using hk
        simp [write, hxj, hxk, ih hk2]

theorem delete_delete_same (s : Slots α) (k : String) : delete (delete s k) k = delete s k := by
  induction s with
  | nil => simp [delete]
  | cons p rest ih =>
    obtain ⟨x, w⟩ := p
    by_cases h : x = k <;> simp [delete, h, ih]

theorem delete_comm (s : Slots α) (k j : String) :
    delete (delete s k) j = delete (delete s j) k := by
  induction s with
  | nil => simp [delete]
  | cons p rest ih =>
    obtain ⟨x, w⟩ := p
    by_cases hk : x = k
    · subst hk
      by_cases hj : x = j
      · subst hj; simp [delete, ih]
      · simp [delete, hj, ih]
    · by_cases hj : x = j
      · subst hj; simp [delete, hk, ih]
      · simp [delete, hk, hj, ih]

theorem keys_delete_subset (s : Slots α) (k x : String) (h : x ∈ keys (delete s k)) :
    x ∈ keys s ∧ x ≠ k := by
  induction s with
  | nil => simp [delete, keys] at h
  | cons p rest ih =>
    obtain ⟨y, w⟩ := p
    by_cases hy : y = k
    · simp only [delete, hy, if_true] at h
      have := ih h
      exact ⟨by simp [keys] at this ⊢; exact Or.inr this.1, this.2⟩
    · simp only [delete, hy, if_false, keys, List.map_cons, List.mem_cons] at h
      rcases h with h | h
      · subst h; exact ⟨by simp [keys], hy⟩
      · have := ih (by simpa [keys] using h)
        exact ⟨by simp [keys] at this ⊢; exact Or.inr this.1, this.2⟩

theorem foldl_delete_eq_nil (ks : List String) : ∀ s : Slots α,
    (∀ x ∈ keys s, x ∈ ks) → ks.foldl (fun t key => delete t key) s = [] := by
  induction ks with
  | nil =>
    intro s h
    cases s with
    | nil => rfl
    | cons p rest => exact absurd (h p.1 (by simp [keys])) (by simp)
  | cons k ks ih =>
    intro s h
    simp only [List.foldl_cons]
    apply ih
    intro x hx
    obtain ⟨h1, h2⟩ := keys_delete_subset s k x hx
    have := h x h1
    simp only [List.mem_cons] at this
    rcases this with h3 | h3
    · exact absurd h3 h2
    · exact h3

end Slots

theorem Slots.read_delete_of_none {α : Type} (s : Slots α) (j x : String)
    (h : Slots.read s x = none) : Slots.read (Slots.delete s j) x = none := by
  by_cases hj : j = x
  · subst hj; exact Slots.read_delete_same s j
  · rw [Slots.read_delete_ne s hj]; exact h

theorem Slots.delete_pair_idem {α : Type} (s : Slots α) (k j : String) :
    Slots.delete (Slots.delete (Slots.delete (Slots.delete s k) j) k) j
      = Slots.delete (Slots.delete s k) j := by
  rw [Slots.delete_comm (Slots.delete s k) j k, Slots.delete_delete_same,
    Slots.delete_delete_same]

theorem Slots.read_write {α : Type} (s : Slots α) (k j : String) (v : α) :
    Slots.read (Slots.write s k v) j = if k = j then some v else Slots.read s j := by
  by_cases h : k = j
  · subst h; simp [Slots.read_write_same]
  · simp [h, Slots.read_write_ne s v h]

theorem Slots.read_delete {α : Type} (s : Slots α) (k j : String) :
    Slots.read (Slots.delete s k) j = if k = j then none else Slots.read s j := by
  by_cases h : k = j
  · subst h; simp [Slots.read_delete_same]
  · simp [h, Slots.read_delete_ne s h]

theorem Slots.read_write_pair_apart {α : Type} (s : Slots α) (j k : String) (a b : α)
    (h : apart j k) :
    Slots.read (Slots.write (Slots.write s j a) (expirySlot j) b) k = Slots.read s k ∧
    Slots.read (Slots.write (Slots.write s j a) (expirySlot j) b) (expirySlot k)
      = Slots.read s (expirySlot k) := by
  obtain ⟨h1, h2, h3⟩ := h
  have h4 : expirySlot j ≠ expirySlot k := fun e => h1 (expirySlot_inj e)
  exact ⟨by rw [Slots.read_write_ne _ _ h3, Slots.read_write_ne _ _ h1],
    by rw [Slots.read_write_ne _ _ h4, Slots.read_write_ne _ _ h2]⟩

theorem Slots.read_delete_pair_apart {α : Type} (s : Slots α) (j k : String) (h : apart j k) :
    Slots.read (Slots.delete (Slots.delete s j) (expirySlot j)) k = Slots.read s k ∧
    Slots.read (Slots.delete (Slots.delete s j) (expirySlot j)) (expirySlot k)
      = Slots.read s (expirySlot k) := by
  obtain ⟨h1, h2, h3⟩ := h
  have h4 : expirySlot j ≠ expirySlot k := fun e => h1 (expirySlot_inj e)
  exact ⟨by rw [Slots.read_delete_ne _ h3, Slots.read_delete_ne _ h1],
    by rw [Slots.read_delete_ne _ h4, Slots.read_delete_ne _ h2]⟩

theorem Slots.foldl_delete_keys {α : Type} (s : Slots α) :
    (Slots.keys s).foldl (fun t key => Slots.delete t key) s = [] :=
  Slots.foldl_delete_eq_nil _ s (fun _ h => h)

/-! ## The expiry computed by `set` -/

theorem JsInt.eq_of_int_le {a : Int} {x : JsInt} (h : (JsInt.int a).le x) :
    x = .posInf ∨ ∃ m, x = .int m ∧ a ≤ m := by
  cases x with
  | nan => exact absurd h (by simp [JsInt.le])
  | negInf => exact absurd h (by simp [JsInt.le])
  | posInf => exact Or.inl rfl
  | int m => exact Or.inr ⟨m, rfl, h⟩

theorem effectiveExpiry_cases (H : Host) (e : JsVal) :
    effectiveExpiry H e = .posInf ∨ ∃ n : Int, effectiveExpiry H e = .int n ∧ 1 ≤ n := by
  unfold effectiveExpiry
  cases hp : H.parseInt e with
  | nan => exact Or.inr ⟨10800, by simp [JsInt.isNaN], by decide⟩
  | negInf => exact Or.inr ⟨10800, by simp [JsInt.isNaN, JsInt.ltOne], by decide⟩
  | posInf => exact Or.inl (by simp [JsInt.isNaN, JsInt.ltOne])
  | int n =>
    by_cases hn : n < 1
    · exact Or.inr ⟨10800, by simp [JsInt.isNaN, JsInt.ltOne, hn], by decide⟩
    · exact Or.inr ⟨n, by simp [JsInt.isNaN, JsInt.ltOne, hn], by omega⟩

theorem effectiveExpiry_of_invalid (H : Host) (e : JsVal)
    (h : (H.parseInt e).isNaN = true ∨ (H.parseInt e).ltOne = true) :
    effectiveExpiry H e = .int 10800 := by
  unfold effectiveExpiry
  rcases h with h | h <;> simp [h]

theorem effectiveExpiry_of_valid (H : Host) (e : JsVal) (n : Int)
    (h : H.parseInt e = .int n) (hn : 1 ≤ n) : effectiveExpiry H e = .int n := by
  unfold effectiveExpiry
  have : ¬ n < 1 := by omega
  simp [h, JsInt.isNaN, JsInt.ltOne, this]

theorem two_pow_53 : (2 : Int) ^ 53 = 9007199254740992 := by norm_num

/-- Where the exact sum is at most 2^53 no rounding happens. -/
theorem expiryInt_exact (H : Host) (hH : H.Lawful) (now : Nat) (e : JsVal) (n : Int)
    (he : effectiveExpiry H e = .int n) (hn : 1 ≤ n)
    (hsmall : (now : Int) + n * 1000 ≤ 2 ^ 53) :
    expiryInt H now e = .int ((now : Int) + n * 1000) := by
  have h1 : H.toDouble (n * 1000) = .int (n * 1000) :=
    hH.toDouble_int _ (by rw [abs_of_nonneg (by omega)]; omega)
  have h2 : H.toDouble ((now : Int) + n * 1000) = .int ((now : Int) + n * 1000) :=
    hH.toDouble_int _ (by rw [abs_of_nonneg (by omega)]; omega)
  simp only [expiryInt, he, timesThousand, h1, plusNow, h2]

/-- The stored expiry is an infinity or an integer at least 1000, and at least
`now + 1000` for a clock reading in range. -/
theorem expiryInt_cases (H : Host) (hH : H.Lawful) (now : Nat) (e : JsVal) :
    expiryInt H now e = .posInf ∨
      ∃ m : Int, expiryInt H now e = .int m ∧ 1000 ≤ m ∧
        (now ≤ maxTime → (now : Int) + 1000 ≤ m) := by
  have h1000 : H.toDouble 1000 = .int 1000 := hH.toDouble_int _ (by rw [two_pow_53]; decide)
  have hstep : ∀ r : Int, 1000 ≤ r → plusNow H now (.int r) = .posInf ∨
      ∃ m : Int, plusNow H now (.int r) = .int m ∧ 1000 ≤ m ∧
        (now ≤ maxTime → (now : Int) + 1000 ≤ m) := by
    intro r hr
    have hm1 := hH.toDouble_mono 1000 ((now : Int) + r) (by omega)
    rw [h1000] at hm1
    rcases JsInt.eq_of_int_le hm1 with h | ⟨m, h, hm⟩
    · exact Or.inl h
    · refine Or.inr ⟨m, h, hm, fun hclock => ?_⟩
      have hb : H.toDouble ((now : Int) + 1000) = .int ((now : Int) + 1000) :=
        hH.toDouble_int _ (by
          rw [abs_of_nonneg (by omega), two_pow_53]
          have : (now : Int) ≤ 8640000000000000 := by exact_mod_cast hclock
          omega)
      have hm2 := hH.toDouble_mono ((now : Int) + 1000) ((now : Int) + r) (by omega)
      rw [hb, h] at hm2
      exact hm2
  unfold expiryInt
  rcases effectiveExpiry_cases H e with he | ⟨n, he, hn⟩
  · exact Or.inl (by simp [he, timesThousand, plusNow])
  · rw [he]
    have hm := hH.toDouble_mono 1000 (n * 1000) (by omega)
    rw [h1000] at hm
    rcases JsInt.eq_of_int_le hm with h | ⟨r, h, hr⟩
    · exact Or.inl (by simp [timesThousand, h, plusNow])
    · simp only [timesThousand, h]
      exact hstep r hr

theorem expiryInt_isDouble (H : Host) (hH : H.Lawful) (now : Nat) (e : JsVal) :
    H.IsDouble (expiryInt H now e) := by
  unfold expiryInt
  cases h : timesThousand H (effectiveExpiry H e) with
  | nan => trivial
  | negInf => trivial
  | posInf => trivial
  | int r => exact hH.toDouble_isDouble _

theorem ltNat_int (m : Int) (n : Nat) :
    (JsInt.int m).toNum.ltNat n = decide (m < (n : Int)) := by
  simp only [JsInt.toNum, JsNum.ltNat]
  have : ((m : ℚ) < (n : ℚ)) ↔ m < (n : Int) := by
    rw [← Int.cast_natCast n, Int.cast_lt]
  simp [this]

theorem expiryTime_toBoolean (H : Host) (hH : H.Lawful) (now : Nat) (e : JsVal) :
    (expiryTime H now e).toBoolean = true := by
  unfold expiryTime
  rcases expiryInt_cases H hH now e with h | ⟨m, h, hm, _⟩
  · rw [h]; rfl
  · rw [h]
    have : (m : ℚ) ≠ 0 := by
      have : m ≠ 0 := by omega
      exact_mod_cast this
    simp [JsInt.toNum, JsNum.toBoolean, this]

/-- At a clock reading in range the expiry just written is not yet past. -/
theorem expiryTime_not_lt_now (H : Host) (hH : H.Lawful) (now : Nat) (e : JsVal)
    (hclock : now ≤ maxTime) : (expiryTime H now e).ltNat now = false := by
  unfold expiryTime
  rcases expiryInt_cases H hH now e with h | ⟨m, h, _, hm⟩
  · rw [h]; rfl
  · rw [h, ltNat_int]
    have := hm hclock
    simp; omega

/-! ## `get` after `set` -/

namespace LocalStore

theorem local_read_set_expiry (H : Host) (now : Nat) (st : State) (key : String) (v e : JsVal) :
    Slots.read (set H now st key v e) (expirySlot key)
      = some (H.numberToString (expiryTime H now e)) := by
  simp [set, Slots.read_write_same]

theorem local_read_set_value (H : Host) (now : Nat) (st : State) (key : String) (v e : JsVal) :
    Slots.read (set H now st key v e) key = some (v.toStr H) := by
  simp [set, Slots.read_write_ne _ _ (expirySlot_ne key), Slots.read_write_same]

/-- A `get` on a slot pair holding the string form of a number the runtime can
hold and a value. -/
theorem local_get_of_numeric_expiry (H : Host) (hH : H.Lawful) (later : Nat) (st : State)
    (key v : String) (x : JsInt) (hx : H.IsDouble x)
    (hE : Slots.read st (expirySlot key) = some (H.numberToString x.toNum))
    (hV : Slots.read st key = some v) :
    get H later st key
      = if x.toNum.ltNat later = true then (remove st key, .null) else (st, .str v) := by
  simp only [get, hE, hV, hH.numberToString_ne_empty x hx,
    hH.stringToNumber_numberToString x hx, decide_False, Bool.false_or]

/-- A `get` not later than the expiry written by the preceding `set` returns
the stored string and leaves the medium as it is. -/
theorem local_get_set_live (H : Host) (hH : H.Lawful) (now later : Nat) (st : State)
    (key : String) (v e : JsVal) (h : (expiryTime H now e).ltNat later = false) :
    get H later (set H now st key v e) key = (set H now st key v e, .str (v.toStr H)) := by
  rw [local_get_of_numeric_expiry H hH later _ key _ _ (expiryInt_isDouble H hH now e)
    (local_read_set_expiry H now st key v e) (local_read_set_value H now st key v e)]
  simp only [expiryTime] at h
  simp [h]

/-- A `get` later than the expiry written by the preceding `set` evicts. -/
theorem local_get_set_expired (H : Host) (hH : H.Lawful) (now later : Nat) (st : State)
    (key : String) (v e : JsVal) (h : (expiryTime H now e).ltNat later = true) :
    get H later (set H now st key v e) key = (remove (set H now st key v e) key, .null) := by
  rw [local_get_of_numeric_expiry H hH later _ key _ _ (expiryInt_isDouble H hH now e)
    (local_read_set_expiry H now st key v e) (local_read_set_value H now st key v e)]
  simp only [expiryTime] at h
  simp [h]

end LocalStore

namespace MemoryStore

theorem mem_assign_of_ne (H : Host) (st : State) (name : String) (v : JsVal)
    (h : name ≠ "__proto__") : assign H st name v = { st with own := st.own.write name v } := by
  simp [assign, h]

theorem mem_prop_of_own (H : Host) (st : State) (name : String) (v : JsVal)
    (h : Slots.read st.own name = some v) : prop H st name = .val v := by
  simp [prop, h]

theorem mem_set_own (H : Host) (now : Nat) (st : State) (key : String) (v e : JsVal) :
    (set H now st key v e).own
      = (assign H st key v).own.write (expirySlot key) (.num (expiryTime H now e)) ∧
    (set H now st key v e).proto = (assign H st key v).proto := by
  simp [set, mem_assign_of_ne H _ _ _ (expirySlot_ne_proto key)]

theorem mem_set_of_ne (H : Host) (now : Nat) (st : State) (key : String) (v e : JsVal)
    (h : key ≠ "__proto__") :
    set H now st key v e
      = ⟨(st.own.write key v).write (expirySlot key) (.num (expiryTime H now e)), st.proto⟩ := by
  simp [set, mem_assign_of_ne H _ _ _ (expirySlot_ne_proto key), mem_assign_of_ne H _ _ _ h]

theorem mem_read_set_expiry (H : Host) (now : Nat) (st : State) (key : String) (v e : JsVal) :
    Slots.read (set H now st key v e).own (expirySlot key)
      = some (.num (expiryTime H now e)) := by
  rw [(mem_set_own H now st key v e).1, Slots.read_write_same]

theorem mem_read_set_value (H : Host) (now : Nat) (st : State) (key : String) (v e : JsVal)
    (h : key ≠ "__proto__") : Slots.read (set H now st key v e).own key = some v := by
  rw [mem_set_of_ne H now st key v e h]
  simp [Slots.read_write_ne _ _ (expirySlot_ne key), Slots.read_write_same]

/-- A `get` on an object whose own expiry property is a number. -/
theorem mem_get_of_numeric_expiry (H : Host) (later : Nat) (st : State) (key : String)
    (x : JsNum) (hE : Slots.read st.own (expirySlot key) = some (.num x)) :
    get H later st key
      = if (!x.toBoolean || x.ltNat later) = true then (remove st key, .val .null)
        else (st, prop H st key) := by
  simp only [get, mem_prop_of_own H st _ _ hE, JsOut.toBoolean, JsOut.toNumber,
    JsVal.toBoolean, JsVal.toNumber]

/-- A `get` later than the expiry written by the preceding `set` evicts, on
every key. -/
theorem mem_get_set_expired (H : Host) (now later : Nat) (st : State) (key : String)
    (v e : JsVal) (h : (expiryTime H now e).ltNat later = true) :
    get H later (set H now st key v e) key
      = (remove (set H now st key v e) key, .val .null) := by
  rw [mem_get_of_numeric_expiry H later _ key _ (mem_read_set_expiry H now st key v e)]
  simp [h]

/-- A `get` not later than the expiry written by the preceding `set` returns
the stored value and leaves the object as it is, on every key but `__proto__`. -/
theorem mem_get_set_live (H : Host) (hH : H.Lawful) (now later : Nat) (st : State)
    (key : String) (v e : JsVal) (hk : key ≠ "__proto__")
    (h : (expiryTime H now e).ltNat later = false) :
    get H later (set H now st key v e) key = (set H now st key v e, .val v) := by
  rw [mem_get_of_numeric_expiry H later _ key _ (mem_read_set_expiry H now st key v e)]
  simp [h, expiryTime_toBoolean H hH now e,
    mem_prop_of_own H _ _ _ (mem_read_set_value H now st key v e hk)]

end MemoryStore

/-! ## Claims -/

/-- C1: a `get(k)` at the clock reading of `set(k, v, t)`, with nothing in
between, returns exactly the string `v` in `localStore`, for every key, and in
`memoryStore` for every key but `__proto__`. On the key `__proto__` the claim
fails in `memoryStore`: the assignment of a string is ignored by the inherited
setter and `get` returns `Object.prototype`. -/
theorem get_at_set_clock_returns_value (H : Host) (now : Nat) (key v : String) (t : JsVal)
    (ls : LocalStore.State) (ms : MemoryStore.State) :
    (H.Lawful → now ≤ maxTime →
      (LocalStore.get H now (LocalStore.set H now ls key (.str v) t) key).2 = .str v) ∧
    (H.Lawful → now ≤ maxTime → key ≠ "__proto__" →
      (MemoryStore.get H now (MemoryStore.set H now ms key (.str v) t) key).2
        = .val (.str v)) ∧
    (MemoryStore.get refHost 5
      (MemoryStore.set refHost 5 MemoryStore.fresh "__proto__" (.str "v") (.num (.fin 2)))
      "__proto__").2 = .builtin "Object.prototype" := by
  refine ⟨fun hH hc => ?_, fun hH hc hk => ?_, by rfl⟩
  · rw [LocalStore.local_get_set_live H hH now now ls key _ _
      (expiryTime_not_lt_now H hH now t hc)]
    rfl
  · rw [MemoryStore.mem_get_set_live H hH now now ms key _ _ hk
      (expiryTime_not_lt_now H hH now t hc)]

/-- C1 at concrete inputs: the key `__proto__` in `localStore` and the key `a`
in `memoryStore`, set and read at clock 5. -/
theorem get_at_set_clock_returns_value_witness :
    (LocalStore.get refHost 5
      (LocalStore.set refHost 5 [] "__proto__" (.str "v") (.num (.fin 2))) "__proto__").2
      = .str "v" ∧
    (MemoryStore.get refHost 5
      (MemoryStore.set refHost 5 MemoryStore.fresh "a" (.str "v") (.num (.fin 2))) "a").2
      = .val (.str "v") :=
  ⟨(get_at_set_clock_returns_value refHost 5 "__proto__" "v" (.num (.fin 2)) []
      MemoryStore.fresh).1 refHost_lawful (by decide),
    (get_at_set_clock_returns_value refHost 5 "a" "v" (.num (.fin 2)) []
      MemoryStore.fresh).2.1 refHost_lawful (by decide) (by decide)⟩

theorem expiryTime_lt_of_late (H : Host) (hH : H.Lawful) (t0 t1 : Nat) (t : Int) (ht : 1 ≤ t)
    (hlate : (t0 : Int) + 1000 * t < (t1 : Int)) (hrange : (t0 : Int) + 1000 * t ≤ 2 ^ 53) :
    (expiryTime H t0 (.num (.fin (t : ℚ)))).ltNat t1 = true := by
  obtain ⟨m, hm, h1, h2⟩ := hH.parseInt_num_pos t ht
  have he := effectiveExpiry_of_valid H _ m hm h1
  rw [two_pow_53] at hrange
  have hx := expiryInt_exact H hH t0 _ m he h1 (by rw [two_pow_53]; omega)
  rw [expiryTime, hx, ltNat_int]
  simp; omega

/-- A clock reading in range is below 2^53. -/
theorem maxTime_lt_two_pow_53 (t0 t1 : Nat) (t : Int)
    (hlate : (t0 : Int) + 1000 * t < (t1 : Int)) (hclock : t1 ≤ maxTime) :
    (t0 : Int) + 1000 * t ≤ 2 ^ 53 := by
  have hc : (t1 : Int) ≤ 8640000000000000 := by exact_mod_cast hclock
  rw [two_pow_53]
  omega

/-- C2: in both stores, when `set(k, v, t)` with a positive integer `t` runs at
clock `t0` and `get(k)` is the next call, at a clock `t1 > t0 + 1000 * t`, the
`get` returns `null` (and evicts the entry). Clock readings are time values,
at most `maxTime`, so that the expiry `t0 + 1000 * t` is below 2^53. -/
theorem get_after_ttl_returns_null (H : Host) (hH : H.Lawful) (t0 t1 : Nat) (key : String)
    (v : JsVal) (t : Int) (ht : 1 ≤ t) (hlate : (t0 : Int) + 1000 * t < (t1 : Int))
    (hclock : t1 ≤ maxTime) (ls : LocalStore.State) (ms : MemoryStore.State) :
    LocalStore.get H t1 (LocalStore.set H t0 ls key v (.num (.fin (t : ℚ)))) key
      = (LocalStore.remove (LocalStore.set H t0 ls key v (.num (.fin (t : ℚ)))) key, .null) ∧
    MemoryStore.get H t1 (MemoryStore.set H t0 ms key v (.num (.fin (t : ℚ)))) key
      = (MemoryStore.remove (MemoryStore.set H t0 ms key v (.num (.fin (t : ℚ)))) key,
          .val .null) := by
  have h := expiryTime_lt_of_late H hH t0 t1 t ht hlate
    (maxTime_lt_two_pow_53 t0 t1 t hlate hclock)
  exact ⟨LocalStore.local_get_set_expired H hH t0 t1 ls key v _ h,
    MemoryStore.mem_get_set_expired H t0 t1 ms key v _ h⟩

/-- C2 at a concrete input: ttl 1 set at clock 10, read at clock 1500. -/
theorem get_after_ttl_returns_null_witness :
    LocalStore.get refHost 1500
        (LocalStore.set refHost 10 [] "foo" (.str "bar") (.num (.fin ((1 : Int) : ℚ)))) "foo"
      = (LocalStore.remove
          (LocalStore.set refHost 10 [] "foo" (.str "bar") (.num (.fin ((1 : Int) : ℚ)))) "foo",
          .null) ∧
    MemoryStore.get refHost 1500
        (MemoryStore.set refHost 10 MemoryStore.fresh "foo" (.str "bar")
          (.num (.fin ((1 : Int) : ℚ)))) "foo"
      = (MemoryStore.remove
          (MemoryStore.set refHost 10 MemoryStore.fresh "foo" (.str "bar")
            (.num (.fin ((1 : Int) : ℚ)))) "foo", .val .null) :=
  get_after_ttl_returns_null refHost refHost_lawful 10 1500 "foo" (.str "bar") 1 (by decide)
    (by decide) (by decide) [] MemoryStore.fresh
/-- C3 fails as stated for an expiry whose sum with the clock reading is not a
double: `set("k", "v", 2^53)` at clock 1700000000123 parses the third argument
to `n = 2^53`, and the slot `k_expiry` holds 9007200954740992000, the double
nearest to `now + n * 1000`, which is 9007200954740992123. -/
theorem set_expiry_rounded_counterexample :
    refHost.parseInt (.num (.fin 9007199254740992)) = .int 9007199254740992 ∧
    (1700000000123 : Int) + 9007199254740992 * 1000 = 9007200954740992123 ∧
    Slots.read (LocalStore.set refHost 1700000000123 [] "k" (.str "v")
      (.num (.fin 9007199254740992))) "k_expiry" = some "9007200954740992000" ∧
    Slots.read (MemoryStore.set refHost 1700000000123 MemoryStore.fresh "k" (.str "v")
      (.num (.fin 9007199254740992))).own "k_expiry"
      = some (.num (.fin 9007200954740992000)) :=
  ⟨by rfl, by decide, by rfl, by rfl⟩

/-- C3, amended: in both stores and every state, `set(k, v, e)` with an `e`
whose integer parse is not-a-number or below 1 leaves exactly the state of
`set(k, v)` with the third argument omitted, and the slot `k + "_expiry"`
holds `now + 10800 * 1000` (for a clock reading in range); with an `e` that
parses to `n >= 1` the slot holds the sum `now + n * 1000` as the runtime
computes it in doubles, which is that integer as long as it is at most 2^53.
On the reference runtime `0`, `-5`, `"not-a-number"`, `null` and an omitted
argument are all of the first kind. -/
theorem set_expiry_default_and_explicit (H : Host) (hH : H.Lawful) (now : Nat) (key : String)
    (v e : JsVal) (ls : LocalStore.State) (ms : MemoryStore.State) :
    (Slots.read (LocalStore.set H now ls key v e) (expirySlot key)
        = some (H.numberToString (expiryInt H now e).toNum) ∧
      Slots.read (MemoryStore.set H now ms key v e).own (expirySlot key)
        = some (.num (expiryInt H now e).toNum)) ∧
    (((H.parseInt e).isNaN = true ∨ (H.parseInt e).ltOne = true) →
      LocalStore.set H now ls key v e = LocalStore.set H now ls key v .undefined ∧
      MemoryStore.set H now ms key v e = MemoryStore.set H now ms key v .undefined ∧
      expiryInt H now e = plusNow H now (timesThousand H (.int 10800)) ∧
      (now ≤ maxTime → expiryInt H now e = .int ((now : Int) + 10800 * 1000))) ∧
    (∀ n : Int, H.parseInt e = .int n → 1 ≤ n →
      expiryInt H now e = plusNow H now (timesThousand H (.int n)) ∧
      ((now : Int) + n * 1000 ≤ 2 ^ 53 → expiryInt H now e = .int ((now : Int) + n * 1000))) ∧
    (∀ x ∈ [JsVal.num (.fin 0), .num (.fin (-5)), .str "not-a-number", .null, .undefined],
      (refHost.parseInt x).isNaN = true ∨ (refHost.parseInt x).ltOne = true) := by
  refine ⟨⟨LocalStore.local_read_set_expiry H now ls key v e,
    MemoryStore.mem_read_set_expiry H now ms key v e⟩, fun h => ?_, fun n hn h1 => ?_, ?_⟩
  · have h1 := effectiveExpiry_of_invalid H e h
    have h2 := effectiveExpiry_of_invalid H .undefined
      (Or.inl (by rw [hH.parseInt_undefined]; rfl))
    have h3 : expiryTime H now e = expiryTime H now .undefined := by
      simp [expiryTime, expiryInt, h1, h2]
    refine ⟨?_, ?_, ?_, fun hc => ?_⟩
    · simp [LocalStore.set, h3]
    · simp [MemoryStore.set, h3]
    · simp [expiryInt, h1]
    · have hc2 : (now : Int) ≤ 8640000000000000 := by exact_mod_cast hc
      exact expiryInt_exact H hH now e 10800 h1 (by decide) (by rw [two_pow_53]; omega)
  · have h2 := effectiveExpiry_of_valid H e n hn h1
    exact ⟨by simp [expiryInt, h2], fun hs => expiryInt_exact H hH now e n h2 h1 hs⟩
  · intro x hx
    simp only [List.mem_cons, List.mem_singleton, List.not_mem_nil, or_false] at hx
    rcases hx with rfl | rfl | rfl | rfl | rfl
    · exact Or.inr (by rfl)
    · exact Or.inr (by rfl)
    · exact Or.inl (by rfl)
    · exact Or.inl (by rfl)
    · exact Or.inl (by rfl)

/-- C3, amended, at a concrete input: the ttl `"not-a-number"` at clock 7 on empty stores. -/
theorem set_expiry_default_and_explicit_witness :
    LocalStore.set refHost 7 [] "k" (.str "v") (.str "not-a-number")
      = LocalStore.set refHost 7 [] "k" (.str "v") .undefined ∧
    expiryInt refHost 7 (.str "not-a-number") = .int ((7 : Int) + 10800 * 1000) :=
  have h := (set_expiry_default_and_explicit refHost refHost_lawful 7 "k" (.str "v")
    (.str "not-a-number") [] MemoryStore.fresh).2.1 (Or.inl (by rfl))
  ⟨h.1, h.2.2.2 (by decide)⟩

/-! ## Calls that do not write the expiry slot of a key -/

theorem local_get_of_absent (H : Host) (now : Nat) (st : LocalStore.State) (key : String)
    (h : Slots.read st (expirySlot key) = none) :
    LocalStore.get H now st key = (LocalStore.remove st key, .null) := by
  simp [LocalStore.get, h]

theorem local_get_state (H : Host) (now : Nat) (st : LocalStore.State) (key : String) :
    (LocalStore.get H now st key).1 = st ∨
      (LocalStore.get H now st key).1 = LocalStore.remove st key := by
  unfold LocalStore.get
  split
  · exact Or.inr rfl
  · split
    · exact Or.inr rfl
    · split <;> exact Or.inl rfl

theorem local_step_keeps_absent (H : Host) (st : LocalStore.State) (k : String) (op : Nat × Op)
    (h : Slots.read st (expirySlot k) = none)
    (h1 : op.2.setKey ≠ some k) (h2 : op.2.setKey ≠ some (expirySlot k)) :
    Slots.read (LocalStore.step H st op).1 (expirySlot k) = none := by
  obtain ⟨now, op⟩ := op
  have hset : ∀ (j : String) (v e : JsVal), j ≠ k → j ≠ expirySlot k →
      Slots.read (LocalStore.set H now st j v e) (expirySlot k) = none := by
    intro j v e hj1 hj2
    have hne : expirySlot j ≠ expirySlot k := fun e => hj1 (expirySlot_inj e)
    simp only [LocalStore.set]
    rw [Slots.read_write_ne _ _ hne, Slots.read_write_ne _ _ hj2]
    exact h
  have hrem : ∀ j : String, Slots.read (LocalStore.remove st j) (expirySlot k) = none :=
    fun j => Slots.read_delete_of_none _ _ _ (Slots.read_delete_of_none _ _ _ h)
  have hget : ∀ j : String, Slots.read (LocalStore.get H now st j).1 (expirySlot k) = none := by
    intro j
    rcases local_get_state H now st j with e | e <;> rw [e]
    · exact h
    · exact hrem j
  cases op with
  | set j v e =>
    simp only [Op.setKey, ne_eq, Option.some.injEq] at h1 h2
    exact hset j v e h1 h2
  | get j => exact hget j
  | oSet j v e =>
    simp only [Op.setKey, ne_eq, Option.some.injEq] at h1 h2
    exact hset j _ e h1 h2
  | oGet j => exact hget j
  | remove j => exact hrem j
  | clear => rfl

theorem local_run_keeps_absent (H : Host) (k : String) (ops : List (Nat × Op)) :
    ∀ st : LocalStore.State, Slots.read st (expirySlot k) = none →
    (∀ op ∈ ops, op.2.setKey ≠ some k ∧ op.2.setKey ≠ some (expirySlot k)) →
    Slots.read (LocalStore.run H st ops) (expirySlot k) = none := by
  induction ops with
  | nil => intro st h _; exact h
  | cons op rest ih =>
    intro st h hops
    have hop := hops op (by simp)
    exact ih _ (local_step_keeps_absent H st k op h hop.1 hop.2)
      (fun o ho => hops o (by simp [ho]))

theorem local_run_append (H : Host) (st : LocalStore.State) (a b : List (Nat × Op)) :
    LocalStore.run H st (a ++ b) = LocalStore.run H (LocalStore.run H st a) b := by
  simp [LocalStore.run, List.foldl_append]

theorem local_run_cons (H : Host) (st : LocalStore.State) (op : Nat × Op)
    (rest : List (Nat × Op)) :
    LocalStore.run H st (op :: rest) = LocalStore.run H (LocalStore.step H st op).1 rest := rfl

theorem mem_run_cons (H : Host) (st : MemoryStore.State) (op : Nat × Op)
    (rest : List (Nat × Op)) :
    MemoryStore.run H st (op :: rest) = MemoryStore.run H (MemoryStore.step H st op).1 rest := rfl

theorem mem_run_append (H : Host) (st : MemoryStore.State) (a b : List (Nat × Op)) :
    MemoryStore.run H st (a ++ b) = MemoryStore.run H (MemoryStore.run H st a) b := by
  simp [MemoryStore.run, List.foldl_append]

theorem mem_get_state (H : Host) (now : Nat) (st : MemoryStore.State) (key : String) :
    (MemoryStore.get H now st key).1 = st ∨
      (MemoryStore.get H now st key).1 = MemoryStore.remove st key := by
  unfold MemoryStore.get
  simp only
  split
  · exact Or.inr rfl
  · exact Or.inl rfl

theorem mem_clear_eq (st : MemoryStore.State) : MemoryStore.clear st = ⟨[], st.proto⟩ := by
  simp [MemoryStore.clear, Slots.foldl_delete_keys]

/-- On a pristine object a name ending in `_expiry` reads as its own property,
or as `undefined`. -/
theorem mem_prop_expiry_of_absent (H : Host) (hH : H.Lawful) (st : MemoryStore.State)
    (key : String) (hp : MemoryStore.Pristine st)
    (h : Slots.read st.own (expirySlot key) = none) :
    MemoryStore.prop H st (expirySlot key) = .val .undefined := by
  unfold MemoryStore.Pristine at hp
  simp [MemoryStore.prop, h, MemoryStore.inherited, hp, MemoryStore.fromObjectPrototype,
    expirySlot_ne_proto, hH.objectPrototype_no_expiry]

theorem mem_get_of_absent (H : Host) (hH : H.Lawful) (now : Nat) (st : MemoryStore.State)
    (key : String) (hp : MemoryStore.Pristine st)
    (h : Slots.read st.own (expirySlot key) = none) :
    MemoryStore.get H now st key = (MemoryStore.remove st key, .val .null) := by
  simp [MemoryStore.get, mem_prop_expiry_of_absent H hH st key hp h, JsOut.toBoolean,
    JsVal.toBoolean]

theorem mem_step_keeps_absent (H : Host) (st : MemoryStore.State) (k : String) (op : Nat × Op)
    (hp : MemoryStore.Pristine st) (h : Slots.read st.own (expirySlot k) = none)
    (h1 : op.2.setKey ≠ some k) (h2 : op.2.setKey ≠ some (expirySlot k))
    (h3 : op.2.setKey ≠ some "__proto__") :
    MemoryStore.Pristine (MemoryStore.step H st op).1 ∧
    Slots.read (MemoryStore.step H st op).1.own (expirySlot k) = none := by
  obtain ⟨now, op⟩ := op
  have hset : ∀ (j : String) (v e : JsVal), j ≠ k → j ≠ expirySlot k → j ≠ "__proto__" →
      MemoryStore.Pristine (MemoryStore.set H now st j v e) ∧
      Slots.read (MemoryStore.set H now st j v e).own (expirySlot k) = none := by
    intro j v e hj1 hj2 hj3
    have hne : expirySlot j ≠ expirySlot k := fun e => hj1 (expirySlot_inj e)
    rw [MemoryStore.mem_set_of_ne H now st j v e hj3]
    refine ⟨hp, ?_⟩
    show Slots.read (Slots.write (Slots.write st.own j v) (expirySlot j) _) (expirySlot k) = none
    rw [Slots.read_write_ne _ _ hne, Slots.read_write_ne _ _ hj2]
    exact h
  have hrem : ∀ j : String, MemoryStore.Pristine (MemoryStore.remove st j) ∧
      Slots.read (MemoryStore.remove st j).own (expirySlot k) = none :=
    fun j => ⟨hp, Slots.read_delete_of_none _ _ _ (Slots.read_delete_of_none _ _ _ h)⟩
  have hget : ∀ j : String, MemoryStore.Pristine (MemoryStore.get H now st j).1 ∧
      Slots.read (MemoryStore.get H now st j).1.own (expirySlot k) = none := by
    intro j
    rcases mem_get_state H now st j with e | e <;> rw [e]
    · exact ⟨hp, h⟩
    · exact hrem j
  cases op with
  | set j v e =>
    simp only [Op.setKey, ne_eq, Option.some.injEq] at h1 h2 h3
    exact hset j v e h1 h2 h3
  | get j => exact hget j
  | oSet j v e =>
    simp only [Op.setKey, ne_eq, Option.some.injEq] at h1 h2 h3
    exact hset j v e h1 h2 h3
  | oGet j => exact hget j
  | remove j => exact hrem j
  | clear =>
    show MemoryStore.Pristine (MemoryStore.clear st) ∧
      Slots.read (MemoryStore.clear st).own (expirySlot k) = none
    rw [mem_clear_eq]
    exact ⟨hp, rfl⟩

theorem mem_run_keeps_absent (H : Host) (k : String) (ops : List (Nat × Op)) :
    ∀ st : MemoryStore.State, MemoryStore.Pristine st →
    Slots.read st.own (expirySlot k) = none →
    (∀ op ∈ ops, op.2.setKey ≠ some k ∧ op.2.setKey ≠ some (expirySlot k)) →
    (∀ op ∈ ops, op.2.setKey ≠ some "__proto__") →
    MemoryStore.Pristine (MemoryStore.run H st ops) ∧
    Slots.read (MemoryStore.run H st ops).own (expirySlot k) = none := by
  induction ops with
  | nil => intro st hp h _ _; exact ⟨hp, h⟩
  | cons op rest ih =>
    intro st hp h hops hproto
    have hop := hops op (by simp)
    have hs := mem_step_keeps_absent H st k op hp h hop.1 hop.2 (hproto op (by simp))
    exact ih _ hs.1 hs.2 (fun o ho => hops o (by simp [ho])) (fun o ho => hproto o (by simp [ho]))

/-- C4 fails as stated: starting from empty stores, `set("a", "v")` at clock 1
and `set("a_expiry_expiry", "x")` at clock 2 contain no `set` on the key
`a_expiry`, yet `get("a_expiry")` at clock 3 returns the expiry that the first
call wrote for `a`: the string `10800001` in `localStore`, the number in
`memoryStore`. -/
theorem get_never_set_key_counterexample :
    (∀ op ∈ [((1 : Nat), Op.set "a" (.str "v") .undefined),
        (2, Op.set "a_expiry_expiry" (.str "x") .undefined)],
      op.2.setKey ≠ some "a_expiry") ∧
    (LocalStore.get refHost 3 (LocalStore.run refHost []
      [(1, Op.set "a" (.str "v") .undefined),
        (2, Op.set "a_expiry_expiry" (.str "x") .undefined)]) "a_expiry").2
      = .str "10800001" ∧
    (MemoryStore.get refHost 3 (MemoryStore.run refHost MemoryStore.fresh
      [(1, Op.set "a" (.str "v") .undefined),
        (2, Op.set "a_expiry_expiry" (.str "x") .undefined)]) "a_expiry").2
      = .val (.num (.fin 10800001)) := by
  refine ⟨?_, by rfl, by rfl⟩
  intro op hop
  simp only [List.mem_cons, List.mem_singleton, List.not_mem_nil, or_false] at hop
  rcases hop with rfl | rfl <;> simp [Op.setKey]

/-- C4, amended: `get(k)` returns `null` after every sequence of calls, on any
keys and with any values, that starts from an empty store and holds no `set`
or `oSet` on `k` or on `k + "_expiry"`; and after every sequence in which
`remove(k)` is followed by no `set` or `oSet` on `k` or on `k + "_expiry"`. In
`memoryStore` this is stated for sequences with no `set` or `oSet` on the key
`__proto__`, on an object that still has its original prototype. -/
theorem get_null_when_expiry_slot_unwritten (H : Host) (hH : H.Lawful) (now : Nat) (k : String)
    (post : List (Nat × Op))
    (hpost : ∀ op ∈ post, op.2.setKey ≠ some k ∧ op.2.setKey ≠ some (expirySlot k)) :
    (LocalStore.get H now (LocalStore.run H [] post) k).2 = .null ∧
    (∀ (ls : LocalStore.State) (pre : List (Nat × Op)) (tr : Nat),
      (LocalStore.get H now (LocalStore.run H ls (pre ++ (tr, Op.remove k) :: post)) k).2
        = .null) ∧
    ((∀ op ∈ post, op.2.setKey ≠ some "__proto__") →
      (MemoryStore.get H now (MemoryStore.run H MemoryStore.fresh post) k).2 = .val .null ∧
      ∀ (ms : MemoryStore.State) (tr : Nat), MemoryStore.Pristine ms →
        (MemoryStore.get H now (MemoryStore.run H ms ((tr, Op.remove k) :: post)) k).2
          = .val .null) := by
  refine ⟨?_, ?_, fun hproto => ⟨?_, ?_⟩⟩
  · rw [local_get_of_absent H now _ k (local_run_keeps_absent H k post [] rfl hpost)]
  · intro ls pre tr
    rw [local_run_append, local_run_cons]
    have h0 : Slots.read (LocalStore.step H (LocalStore.run H ls pre) (tr, Op.remove k)).1
        (expirySlot k) = none := Slots.read_delete_same _ _
    rw [local_get_of_absent H now _ k (local_run_keeps_absent H k post _ h0 hpost)]
  · have h := mem_run_keeps_absent H k post MemoryStore.fresh rfl rfl hpost hproto
    rw [mem_get_of_absent H hH now _ k h.1 h.2]
  · intro ms tr hp
    rw [mem_run_cons]
    have h0 : Slots.read (MemoryStore.step H ms (tr, Op.remove k)).1.own (expirySlot k)
        = none := Slots.read_delete_same _ _
    have hp0 : MemoryStore.Pristine (MemoryStore.step H ms (tr, Op.remove k)).1 := hp
    have h := mem_run_keeps_absent H k post _ hp0 h0 hpost hproto
    rw [mem_get_of_absent H hH now _ k h.1 h.2]

/-- C4, amended, at a concrete input: key `foo` after `set("bar", "baz")`. -/
theorem get_null_when_expiry_slot_unwritten_witness :
    (LocalStore.get refHost 9 (LocalStore.run refHost []
      [(1, Op.set "bar" (.str "baz") .undefined)]) "foo").2 = .null ∧
    (MemoryStore.get refHost 9 (MemoryStore.run refHost MemoryStore.fresh
      [(1, Op.set "bar" (.str "baz") .undefined)]) "foo").2 = .val .null :=
  have h := get_null_when_expiry_slot_unwritten refHost refHost_lawful 9 "foo"
    [(1, Op.set "bar" (.str "baz") .undefined)]
    (by
      intro op hop
      simp only [List.mem_singleton] at hop
      subst hop
      exact ⟨by simp [Op.setKey], by simp [Op.setKey]; decide⟩)
  ⟨h.1, (h.2.2 (by
      intro op hop
      simp only [List.mem_singleton] at hop
      subst hop
      simp [Op.setKey])).1⟩

theorem local_set_set (H : Host) (now1 now2 : Nat) (st : LocalStore.State) (key : String)
    (v1 v2 e1 e2 : JsVal) :
    LocalStore.set H now2 (LocalStore.set H now1 st key v1 e1) key v2 e2
      = LocalStore.set H now2 st key v2 e2 := by
  have hp : Slots.read (Slots.write st key (v1.toStr H)) key ≠ none := by
    simp [Slots.read_write_same]
  simp only [LocalStore.set]
  rw [Slots.write_comm_of_present _ _ _ (expirySlot_ne key).symm hp, Slots.write_write_same,
    Slots.write_write_same]

theorem mem_set_set (H : Host) (now1 now2 : Nat) (st : MemoryStore.State) (key : String)
    (v1 v2 e1 e2 : JsVal) (hk : key ≠ "__proto__") :
    MemoryStore.set H now2 (MemoryStore.set H now1 st key v1 e1) key v2 e2
      = MemoryStore.set H now2 st key v2 e2 := by
  have hp : Slots.read (Slots.write st.own key v1) key ≠ none := by
    simp [Slots.read_write_same]
  rw [MemoryStore.mem_set_of_ne H now1 st key v1 e1 hk, MemoryStore.mem_set_of_ne H now2 _ key v2 e2 hk,
    MemoryStore.mem_set_of_ne H now2 st key v2 e2 hk]
  simp only
  rw [Slots.write_comm_of_present _ _ _ (expirySlot_ne key).symm hp, Slots.write_write_same,
    Slots.write_write_same]

/-- C5: overwrite replaces. In `localStore`, for every key, and in
`memoryStore`, for every key but `__proto__`, `set(k, v1, t1)` followed by
`set(k, v2, t2)` leaves exactly the state of `set(k, v2, t2)` alone (the second
`set` at the same clock in both), the expiry slot holds the second call's
expiry, and a `get(k)` not later than that expiry returns `v2` (in `localStore`
its string form). On the key `__proto__` the claim fails in `memoryStore`:
after `set("__proto__", "1")` and `set("__proto__", "2")`, `get` returns
`Object.prototype`; and after a first `set` with an object the prototype stays
replaced, unlike after the second `set` alone. -/
theorem set_overwrites (H : Host) (now1 now2 later : Nat) (key : String)
    (v1 v2 t1 t2 : JsVal) (ls : LocalStore.State) (ms : MemoryStore.State) :
    (H.Lawful → (expiryTime H now2 t2).ltNat later = false →
      LocalStore.set H now2 (LocalStore.set H now1 ls key v1 t1) key v2 t2
        = LocalStore.set H now2 ls key v2 t2 ∧
      Slots.read (LocalStore.set H now2 (LocalStore.set H now1 ls key v1 t1) key v2 t2)
        (expirySlot key) = some (H.numberToString (expiryTime H now2 t2)) ∧
      (LocalStore.get H later
        (LocalStore.set H now2 (LocalStore.set H now1 ls key v1 t1) key v2 t2) key).2
        = .str (v2.toStr H)) ∧
    (H.Lawful → (expiryTime H now2 t2).ltNat later = false → key ≠ "__proto__" →
      MemoryStore.set H now2 (MemoryStore.set H now1 ms key v1 t1) key v2 t2
        = MemoryStore.set H now2 ms key v2 t2 ∧
      Slots.read (MemoryStore.set H now2 (MemoryStore.set H now1 ms key v1 t1) key v2 t2).own
        (expirySlot key) = some (.num (expiryTime H now2 t2)) ∧
      (MemoryStore.get H later
        (MemoryStore.set H now2 (MemoryStore.set H now1 ms key v1 t1) key v2 t2) key).2
        = .val v2) ∧
    (MemoryStore.get refHost 3
      (MemoryStore.set refHost 2
        (MemoryStore.set refHost 1 MemoryStore.fresh "__proto__" (.str "1") .undefined)
        "__proto__" (.str "2") .undefined) "__proto__").2 = .builtin "Object.prototype" ∧
    (MemoryStore.set refHost 2
      (MemoryStore.set refHost 1 MemoryStore.fresh "__proto__" (.obj [("a", .str "b")])
        .undefined) "__proto__" (.str "2") .undefined).proto
      = .installed (.obj [("a", .str "b")]) ∧
    (MemoryStore.set refHost 2 MemoryStore.fresh "__proto__" (.str "2") .undefined).proto
      = .objectPrototype := by
  refine ⟨fun hH hl => ?_, fun hH hl hk => ?_, by rfl, by rfl, by rfl⟩
  · rw [local_set_set]
    exact ⟨rfl, LocalStore.local_read_set_expiry _ _ _ _ _ _,
      by rw [LocalStore.local_get_set_live H hH now2 later ls key _ _ hl]⟩
  · rw [mem_set_set H now1 now2 ms key v1 v2 t1 t2 hk]
    exact ⟨rfl, MemoryStore.mem_read_set_expiry _ _ _ _ _ _,
      by rw [MemoryStore.mem_get_set_live H hH now2 later ms key _ _ hk hl]⟩

/-- C5 at a concrete input: the scenario `set("a", "1")`, `set("a", "2")`,
`get("a")`, in both stores. -/
theorem set_overwrites_witness :
    (LocalStore.get refHost 3
      (LocalStore.set refHost 2 (LocalStore.set refHost 1 [] "a" (.str "1") .undefined)
        "a" (.str "2") .undefined) "a").2 = .str "2" ∧
    MemoryStore.set refHost 2
        (MemoryStore.set refHost 1 MemoryStore.fresh "a" (.str "1") .undefined)
        "a" (.str "2") .undefined
      = MemoryStore.set refHost 2 MemoryStore.fresh "a" (.str "2") .undefined ∧
    (MemoryStore.get refHost 3
      (MemoryStore.set refHost 2
        (MemoryStore.set refHost 1 MemoryStore.fresh "a" (.str "1") .undefined)
        "a" (.str "2") .undefined) "a").2 = .val (.str "2") :=
  have h := set_overwrites refHost 1 2 3 "a" (.str "1") (.str "2") .undefined .undefined []
    MemoryStore.fresh
  ⟨(h.1 refHost_lawful (by rfl)).2.2, (h.2.1 refHost_lawful (by rfl) (by decide)).1,
    (h.2.1 refHost_lawful (by rfl) (by decide)).2.2⟩

/-- C6: object round trip. For a value `o` that the runtime serialises to a
text which parses back to `o`, `oGet(k)` after `oSet(k, o, e)` and not later
than the expiry written returns `o`: in `localStore` for every key, in
`memoryStore` for every key but `__proto__`. On the key `__proto__` the claim
fails in `memoryStore`: after `oSet("__proto__", 42)`, `oGet` returns
`Object.prototype`. -/
theorem object_round_trip (H : Host) (now later : Nat) (key text : String)
    (o e : JsVal) (ls : LocalStore.State) (ms : MemoryStore.State) :
    (H.Lawful → H.jsonStringify o = some text → H.jsonParse text = some o →
      (expiryTime H now e).ltNat later = false →
      (LocalStore.oGet H later (LocalStore.oSet H now ls key o e) key).2 = some o) ∧
    (H.Lawful → (expiryTime H now e).ltNat later = false → key ≠ "__proto__" →
      (MemoryStore.oGet H later (MemoryStore.oSet H now ms key o e) key).2 = .val o) ∧
    refHost.jsonStringify (.num (.fin 42)) = some "42" ∧
    refHost.jsonParse "42" = some (.num (.fin 42)) ∧
    (MemoryStore.oGet refHost 6
      (MemoryStore.oSet refHost 5 MemoryStore.fresh "__proto__" (.num (.fin 42)) .undefined)
      "__proto__").2 = .builtin "Object.prototype" := by
  refine ⟨fun hH hs hp hl => ?_, fun hH hl hk => ?_, by rfl, by rfl, by rfl⟩
  · simp only [LocalStore.oGet, LocalStore.oSet, LocalStore.stringified, hs]
    rw [LocalStore.local_get_set_live H hH now later ls key _ _ hl]
    simpa [JsVal.toStr] using hp
  · show (MemoryStore.get H later (MemoryStore.set H now ms key o e) key).2 = .val o
    rw [MemoryStore.mem_get_set_live H hH now later ms key _ _ hk hl]

/-- C6 at a concrete input: the number 42 under the key `foo`, in both
stores. -/
theorem object_round_trip_witness :
    (LocalStore.oGet refHost 6
      (LocalStore.oSet refHost 5 [] "foo" (.num (.fin 42)) .undefined) "foo").2
      = some (.num (.fin 42)) ∧
    (MemoryStore.oGet refHost 6
      (MemoryStore.oSet refHost 5 MemoryStore.fresh "foo" (.num (.fin 42)) .undefined) "foo").2
      = .val (.num (.fin 42)) :=
  have h := object_round_trip refHost 5 6 "foo" "42" (.num (.fin 42)) .undefined []
    MemoryStore.fresh
  ⟨h.1 refHost_lawful (by rfl) (by rfl) (by rfl), h.2.1 refHost_lawful (by rfl) (by decide)⟩

/-- C7: after `clear()`, `get(k)` and `oGet(k)` return `null` in `localStore`,
from every state and for every key, and in `memoryStore` on an object that
still has its original prototype. The claim fails in `memoryStore` once a
prototype was installed: after `set("__proto__", o)` with `o` holding `foo` and
a live `foo_expiry`, and `clear()`, `get("foo")` still returns `"x"`. -/
theorem get_after_clear_returns_null (H : Host) (now : Nat) (key : String)
    (ls : LocalStore.State) (ms : MemoryStore.State) :
    (H.Lawful →
      (LocalStore.get H now (LocalStore.clear ls) key).2 = .null ∧
      (LocalStore.oGet H now (LocalStore.clear ls) key).2 = some .null) ∧
    (H.Lawful → MemoryStore.Pristine ms →
      (MemoryStore.get H now (MemoryStore.clear ms) key).2 = .val .null ∧
      (MemoryStore.oGet H now (MemoryStore.clear ms) key).2 = .val .null) ∧
    (MemoryStore.get refHost 1700000000000
      (MemoryStore.clear
        (MemoryStore.set refHost 1700000000000 MemoryStore.fresh "__proto__"
          (.obj [("foo", .str "x"), ("foo_expiry", .num (.fin 9999999999999))]) .undefined))
      "foo").2 = .val (.str "x") := by
  refine ⟨fun hH => ?_, fun hH hp => ?_, by rfl⟩
  · have hl : LocalStore.get H now (LocalStore.clear ls) key
        = (LocalStore.remove (LocalStore.clear ls) key, .null) :=
      local_get_of_absent H now _ key rfl
    refine ⟨by rw [hl], ?_⟩
    simp only [LocalStore.oGet, hl, JsVal.toStr]
    exact hH.jsonParse_null
  · have hm : MemoryStore.get H now (MemoryStore.clear ms) key
        = (MemoryStore.remove (MemoryStore.clear ms) key, .val .null) :=
      mem_get_of_absent H hH now _ key (by rw [mem_clear_eq]; exact hp)
        (by rw [mem_clear_eq]; rfl)
    exact ⟨by rw [hm], by show (MemoryStore.get H now (MemoryStore.clear ms) key).2 = _; rw [hm]⟩

/-- C7 at a concrete input: the test scenario, `set("foo", "bar")`,
`set("foo1", "bar1")`, `clear()`, `get("foo")`, in both stores. -/
theorem get_after_clear_returns_null_witness :
    (LocalStore.get refHost 3 (LocalStore.clear (LocalStore.run refHost []
      [(1, Op.set "foo" (.str "bar") .undefined),
        (2, Op.set "foo1" (.str "bar1") .undefined)])) "foo").2 = .null ∧
    (MemoryStore.get refHost 3 (MemoryStore.clear (MemoryStore.run refHost MemoryStore.fresh
      [(1, Op.set "foo" (.str "bar") .undefined),
        (2, Op.set "foo1" (.str "bar1") .undefined)])) "foo").2 = .val .null :=
  have h := get_after_clear_returns_null refHost 3 "foo"
    (LocalStore.run refHost []
      [(1, Op.set "foo" (.str "bar") .undefined), (2, Op.set "foo1" (.str "bar1") .undefined)])
    (MemoryStore.run refHost MemoryStore.fresh
      [(1, Op.set "foo" (.str "bar") .undefined), (2, Op.set "foo1" (.str "bar1") .undefined)])
  ⟨(h.1 refHost_lawful).1, (h.2.1 refHost_lawful (by rfl)).1⟩

/-- C8: `remove` is total and idempotent. In both stores, for every state and
key, `remove(k)` returns a state (no error outcome exists, also on a store
without entries, which it leaves as it is), afterwards neither the slot `k`
nor the slot `k + "_expiry"` is there, and `remove(k); remove(k)` leaves
exactly the state of a single `remove(k)`. -/
theorem remove_deletes_and_is_idempotent (key : String) (ls : LocalStore.State)
    (ms : MemoryStore.State) :
    (Slots.read (LocalStore.remove ls key) key = none ∧
      Slots.read (LocalStore.remove ls key) (expirySlot key) = none ∧
      LocalStore.remove (LocalStore.remove ls key) key = LocalStore.remove ls key ∧
      LocalStore.remove [] key = []) ∧
    (Slots.read (MemoryStore.remove ms key).own key = none ∧
      Slots.read (MemoryStore.remove ms key).own (expirySlot key) = none ∧
      MemoryStore.remove (MemoryStore.remove ms key) key = MemoryStore.remove ms key ∧
      MemoryStore.remove ⟨[], ms.proto⟩ key = ⟨[], ms.proto⟩) :=
  ⟨⟨Slots.read_delete_of_none _ _ _ (Slots.read_delete_same _ _), Slots.read_delete_same _ _,
      Slots.delete_pair_idem _ _ _, rfl⟩,
    ⟨Slots.read_delete_of_none _ _ _ (Slots.read_delete_same _ _), Slots.read_delete_same _ _,
      by simp [MemoryStore.remove, Slots.delete_pair_idem], rfl⟩⟩

/-- C9 fails as stated: on a medium with one entry whose `setItem` and
`removeItem` both throw a `QuotaExceededError`, every operation throws and yet
`cache()` returns the store named `localstore`. -/
theorem cache_all_operations_throw_counterexample :
    probe (.storage ⟨some (.domException "QuotaExceededError"),
      some (.domException "QuotaExceededError"), 1⟩)
      = .error (.domException "QuotaExceededError") ∧
    (cache (.storage ⟨some (.domException "QuotaExceededError"),
      some (.domException "QuotaExceededError"), 1⟩)).name = "localstore" :=
  ⟨rfl, by decide⟩

/-- C9, amended: `cache()` returns the store named `memorystore` when
`window.localStorage` is `null` or `undefined`, when reading it throws, and
when the probe throws an error that is not a quota-exceeded error; it returns
the store named `localstore` when the probe write and delete succeed. -/
theorem cache_selects_backend :
    (cache .missing).name = "memorystore" ∧
    (∀ e, (cache (.throws e)).name = "memorystore") ∧
    (∀ s e, probe (.storage s) = .error e → isQuotaError e = false →
      (cache (.storage s)).name = "memorystore") ∧
    (∀ s, probe (.storage s) = .ok () → (cache (.storage s)).name = "localstore") := by
  refine ⟨by decide, ?_, ?_, ?_⟩
  · intro e
    simp [cache, test, probe, storageOf, Store.name, MemoryStore.name]
  · intro s e hp hq
    simp [cache, test, hp, hq, Store.name, MemoryStore.name]
  · intro s hp
    simp [cache, test, hp, Store.name, LocalStore.name]

/-- C10: the quota carve-out. When the probe throws `e`, `cache()` returns
`localStore` exactly when `e` is a `DOMException` named `QuotaExceededError` or
`NS_ERROR_DOM_QUOTA_REACHED` and a storage object was obtained whose `length`
is not zero; in every other case it returns `memoryStore`. `cache` is a total
function into the two stores: the error never reaches the caller. -/
theorem cache_quota_carve_out (w : Window) (e : JsError) (h : probe w = .error e) :
    (cache w = .localStore ↔
      ((∃ name, e = .domException name ∧
          (name = "QuotaExceededError" ∨ name = "NS_ERROR_DOM_QUOTA_REACHED")) ∧
        ∃ s, storageOf w = some s ∧ s.length ≠ 0)) ∧
    (cache w = .memoryStore ↔
      ¬ ((∃ name, e = .domException name ∧
          (name = "QuotaExceededError" ∨ name = "NS_ERROR_DOM_QUOTA_REACHED")) ∧
        ∃ s, storageOf w = some s ∧ s.length ≠ 0)) := by
  have hq : isQuotaError e = true ↔ ∃ name, e = .domException name ∧
      (name = "QuotaExceededError" ∨ name = "NS_ERROR_DOM_QUOTA_REACHED") := by
    cases e with
    | domException name => simp [isQuotaError]
    | other d => simp [isQuotaError]
  have hs : (match storageOf w with
      | none => false
      | some s => decide (s.length ≠ 0)) = true ↔ ∃ s, storageOf w = some s ∧ s.length ≠ 0 := by
    cases storageOf w with
    | none => simp
    | some s => simp
  have ht : test w = true ↔ ((∃ name, e = .domException name ∧
      (name = "QuotaExceededError" ∨ name = "NS_ERROR_DOM_QUOTA_REACHED")) ∧
      ∃ s, storageOf w = some s ∧ s.length ≠ 0) := by
    rw [← hq, ← hs]
    simp only [test, h, Bool.and_eq_true]
  constructor
  · rw [← ht]
    by_cases hb : test w = true <;> simp [cache, hb]
  · rw [← ht]
    by_cases hb : test w = true <;> simp [cache, hb]

/-- C10 at concrete inputs: a full medium with three entries, and an empty one. -/
theorem cache_quota_carve_out_witness :
    cache (.storage ⟨some (.domException "QuotaExceededError"), none, 3⟩) = .localStore ∧
    cache (.storage ⟨some (.domException "QuotaExceededError"), none, 0⟩) = .memoryStore :=
  ⟨(cache_quota_carve_out (.storage ⟨some (.domException "QuotaExceededError"), none, 3⟩)
      (.domException "QuotaExceededError") rfl).1.2
      ⟨⟨_, rfl, Or.inl rfl⟩, _, rfl, by decide⟩,
    (cache_quota_carve_out (.storage ⟨some (.domException "QuotaExceededError"), none, 0⟩)
      (.domException "QuotaExceededError") rfl).2.2
      (by
        rintro ⟨_, s, hs, hl⟩
        simp only [storageOf, Option.some.injEq] at hs
        subst hs
        exact hl rfl)⟩

/-! ## What `get` does in an arbitrary state -/

theorem local_get_live (H : Host) (now : Nat) (st : LocalStore.State) (key expiry : String)
    (hE : Slots.read st (expirySlot key) = some expiry) (h1 : expiry ≠ "")
    (h2 : (H.stringToNumber expiry).ltNat now = false) :
    LocalStore.get H now st key
      = (st, match Slots.read st key with
             | none => .null
             | some v => .str v) := by
  unfold LocalStore.get
  simp only [hE, h1, h2, decide_False, Bool.or_false, Bool.false_eq_true, if_false]
  cases Slots.read st key <;> rfl

theorem local_get_evict (H : Host) (now : Nat) (st : LocalStore.State) (key expiry : String)
    (hE : Slots.read st (expirySlot key) = some expiry)
    (h : expiry = "" ∨ (H.stringToNumber expiry).ltNat now = true) :
    LocalStore.get H now st key = (LocalStore.remove st key, .null) := by
  unfold LocalStore.get
  rcases h with h | h <;> simp [hE, h]

theorem mem_get_live (H : Host) (now : Nat) (st : MemoryStore.State) (key : String)
    (h1 : (MemoryStore.prop H st (expirySlot key)).toBoolean = true)
    (h2 : ((MemoryStore.prop H st (expirySlot key)).toNumber H).ltNat now = false) :
    MemoryStore.get H now st key = (st, MemoryStore.prop H st key) := by
  simp [MemoryStore.get, h1, h2]

theorem mem_get_evict (H : Host) (now : Nat) (st : MemoryStore.State) (key : String)
    (h : (MemoryStore.prop H st (expirySlot key)).toBoolean = false ∨
      ((MemoryStore.prop H st (expirySlot key)).toNumber H).ltNat now = true) :
    MemoryStore.get H now st key = (MemoryStore.remove st key, .val .null) := by
  rcases h with h | h <;> simp [MemoryStore.get, h]

theorem mem_get_own_live (H : Host) (now : Nat) (st : MemoryStore.State) (key : String)
    (expiry w : JsVal) (hE : Slots.read st.own (expirySlot key) = some expiry)
    (hV : Slots.read st.own key = some w) (h1 : expiry.toBoolean = true)
    (h2 : (expiry.toNumber H).ltNat now = false) :
    MemoryStore.get H now st key = (st, .val w) := by
  rw [mem_get_live H now st key
    (by rw [MemoryStore.mem_prop_of_own H st _ _ hE]; exact h1)
    (by rw [MemoryStore.mem_prop_of_own H st _ _ hE]; exact h2),
    MemoryStore.mem_prop_of_own H st _ _ hV]

theorem mem_get_own_evict (H : Host) (now : Nat) (st : MemoryStore.State) (key : String)
    (expiry : JsVal) (hE : Slots.read st.own (expirySlot key) = some expiry)
    (h : expiry.toBoolean = false ∨ (expiry.toNumber H).ltNat now = true) :
    MemoryStore.get H now st key = (MemoryStore.remove st key, .val .null) := by
  apply mem_get_evict
  rw [MemoryStore.mem_prop_of_own H st _ _ hE]
  exact h

/-- C11: ties favour liveness. When the expiry slot of `k` holds exactly the
clock reading and the value slot holds `v`, `get(k)` at that clock returns `v`
and leaves the store unchanged: in `localStore` at every clock reading, in
`memoryStore` at every clock reading but 0. At clock reading 0 the claim fails
in `memoryStore`: after `set("k", "v")` and `set("k_expiry", 0)` the expiry
slot of `k` holds the number 0, `get("k")` finds `!expiry` true, returns `null`
and removes the entry, where `localStore`, holding the string `0`, returns
`v`. -/
theorem get_tie_is_live (H : Host) (now : Nat) (key v : String) (w : JsVal)
    (ls : LocalStore.State) (ms : MemoryStore.State) :
    (H.Lawful → now ≤ maxTime →
      Slots.read ls (expirySlot key) = some (H.numberToString (.fin ((now : Int) : ℚ))) →
      Slots.read ls key = some v →
      LocalStore.get H now ls key = (ls, .str v)) ∧
    (now ≠ 0 →
      Slots.read ms.own (expirySlot key) = some (.num (.fin ((now : Int) : ℚ))) →
      Slots.read ms.own key = some w →
      MemoryStore.get H now ms key = (ms, .val w)) ∧
    Slots.read (LocalStore.run refHost []
      [(0, Op.set "k" (.str "v") .undefined),
        (0, Op.set "k_expiry" (.num (.fin 0)) .undefined)]) "k_expiry" = some "0" ∧
    (LocalStore.get refHost 0 (LocalStore.run refHost []
      [(0, Op.set "k" (.str "v") .undefined),
        (0, Op.set "k_expiry" (.num (.fin 0)) .undefined)]) "k").2 = .str "v" ∧
    Slots.read (MemoryStore.run refHost MemoryStore.fresh
      [(0, Op.set "k" (.str "v") .undefined),
        (0, Op.set "k_expiry" (.num (.fin 0)) .undefined)]).own "k_expiry"
      = some (.num (.fin 0)) ∧
    (MemoryStore.get refHost 0 (MemoryStore.run refHost MemoryStore.fresh
      [(0, Op.set "k" (.str "v") .undefined),
        (0, Op.set "k_expiry" (.num (.fin 0)) .undefined)]) "k").2 = .val .null ∧
    Slots.read (MemoryStore.get refHost 0 (MemoryStore.run refHost MemoryStore.fresh
      [(0, Op.set "k" (.str "v") .undefined),
        (0, Op.set "k_expiry" (.num (.fin 0)) .undefined)]) "k").1.own "k" = none := by
  refine ⟨fun hH hc hE hV => ?_, fun h0 hE hV => ?_, by rfl, by rfl, by rfl, by rfl, by rfl⟩
  · have hc2 : (now : Int) ≤ 8640000000000000 := by exact_mod_cast hc
    have hx : H.IsDouble (.int (now : Int)) :=
      hH.toDouble_int _ (by rw [abs_of_nonneg (by omega), two_pow_53]; omega)
    rw [LocalStore.local_get_of_numeric_expiry H hH now ls key v (.int (now : Int)) hx hE hV,
      ltNat_int]
    simp
  · have hlt : (JsNum.fin ((now : Int) : ℚ)).ltNat now = false := by
      have := ltNat_int (now : Int) now
      simp only [JsInt.toNum] at this
      rw [this]; simp
    exact mem_get_own_live H now ms key _ w hE hV (by simp [JsVal.toBoolean, JsNum.toBoolean, h0])
      (by simpa [JsVal.toNumber] using hlt)

/-- C11 at a concrete input: clock 5, expiry slot holding 5, in both stores. -/
theorem get_tie_is_live_witness :
    LocalStore.get refHost 5 [("k", "v"), ("k_expiry", "5")] "k"
      = ([("k", "v"), ("k_expiry", "5")], .str "v") ∧
    MemoryStore.get refHost 5
        ⟨[("k", .str "v"), ("k_expiry", .num (.fin ((5 : Int) : ℚ)))], .objectPrototype⟩ "k"
      = (⟨[("k", .str "v"), ("k_expiry", .num (.fin ((5 : Int) : ℚ)))], .objectPrototype⟩,
          .val (.str "v")) :=
  have h := get_tie_is_live refHost 5 "k" "v" (.str "v") [("k", "v"), ("k_expiry", "5")]
    ⟨[("k", .str "v"), ("k_expiry", .num (.fin ((5 : Int) : ℚ)))], .objectPrototype⟩
  ⟨h.1 refHost_lawful (by decide) (by rfl) (by rfl), h.2.1 (by decide) (by rfl) (by rfl)⟩

/-- C12 fails as stated, in both stores: with the expiry slot holding 5, a
numeric value not strictly greater than the clock reading 5, `get(k)` still
returns the stored value and removes nothing. -/
theorem get_live_iff_strictly_greater_counterexample :
    refHost.stringToNumber "5" = .fin 5 ∧
    LocalStore.get refHost 5 [("k", "v"), ("k_expiry", "5")] "k"
      = ([("k", "v"), ("k_expiry", "5")], .str "v") ∧
    MemoryStore.get refHost 5
        ⟨[("k", .str "v"), ("k_expiry", .num (.fin 5))], .objectPrototype⟩ "k"
      = (⟨[("k", .str "v"), ("k_expiry", .num (.fin 5))], .objectPrototype⟩,
          .val (.str "v")) :=
  ⟨by rfl, by rfl, by rfl⟩

/-- C12, amended: the liveness criterion. In both stores, for every state, key
and clock reading: when the expiry slot of `k` holds a truthy value whose
numeric value is not less than `now` (a value equal to `now`, and one that is
not a number, count as live), `get(k)` returns what the value slot holds and
leaves the store unchanged; when the expiry slot holds a value whose numeric
value is less than `now`, or is absent, `get(k)` returns `null` and afterwards
neither slot of the entry is there. For `memoryStore` the first part is stated
where the value slot is there, and the absent expiry slot on an object that
still has its original prototype. -/
theorem get_liveness_criterion (H : Host) (now : Nat) (key : String) (ls : LocalStore.State)
    (ms : MemoryStore.State) :
    (∀ expiry, Slots.read ls (expirySlot key) = some expiry → expiry ≠ "" →
      (H.stringToNumber expiry).ltNat now = false →
      (LocalStore.get H now ls key).1 = ls ∧
      (LocalStore.get H now ls key).2
        = (match Slots.read ls key with
           | none => .null
           | some v => .str v)) ∧
    ((Slots.read ls (expirySlot key) = none ∨
        ∃ expiry, Slots.read ls (expirySlot key) = some expiry ∧
          (H.stringToNumber expiry).ltNat now = true) →
      (LocalStore.get H now ls key).2 = .null ∧
      Slots.read (LocalStore.get H now ls key).1 key = none ∧
      Slots.read (LocalStore.get H now ls key).1 (expirySlot key) = none) ∧
    (∀ expiry w, Slots.read ms.own (expirySlot key) = some expiry →
      Slots.read ms.own key = some w → expiry.toBoolean = true →
      (expiry.toNumber H).ltNat now = false →
      MemoryStore.get H now ms key = (ms, .val w)) ∧
    (((H.Lawful ∧ MemoryStore.Pristine ms ∧ Slots.read ms.own (expirySlot key) = none) ∨
        ∃ expiry, Slots.read ms.own (expirySlot key) = some expiry ∧
          (expiry.toNumber H).ltNat now = true) →
      (MemoryStore.get H now ms key).2 = .val .null ∧
      Slots.read (MemoryStore.get H now ms key).1.own key = none ∧
      Slots.read (MemoryStore.get H now ms key).1.own (expirySlot key) = none) := by
  have hl : Slots.read (LocalStore.remove ls key) key = none ∧
      Slots.read (LocalStore.remove ls key) (expirySlot key) = none :=
    ⟨Slots.read_delete_of_none _ _ _ (Slots.read_delete_same _ _), Slots.read_delete_same _ _⟩
  have hm : Slots.read (MemoryStore.remove ms key).own key = none ∧
      Slots.read (MemoryStore.remove ms key).own (expirySlot key) = none :=
    ⟨Slots.read_delete_of_none _ _ _ (Slots.read_delete_same _ _), Slots.read_delete_same _ _⟩
  refine ⟨fun expiry hE h1 h2 => ?_, fun h => ?_, fun expiry w hE hV h1 h2 => ?_, fun h => ?_⟩
  · rw [local_get_live H now ls key expiry hE h1 h2]; exact ⟨rfl, rfl⟩
  · rcases h with h | ⟨expiry, hE, h⟩
    · rw [local_get_of_absent H now ls key h]; exact ⟨rfl, hl⟩
    · rw [local_get_evict H now ls key expiry hE (Or.inr h)]; exact ⟨rfl, hl⟩
  · exact mem_get_own_live H now ms key expiry w hE hV h1 h2
  · rcases h with ⟨hH, hp, h⟩ | ⟨expiry, hE, h⟩
    · rw [mem_get_of_absent H hH now ms key hp h]; exact ⟨rfl, hm⟩
    · rw [mem_get_own_evict H now ms key expiry hE (Or.inr h)]; exact ⟨rfl, hm⟩

/-- C12, amended, at concrete inputs: an entry with expiry 9 read at clocks 7
and 12, and a key with no slots. -/
theorem get_liveness_criterion_witness :
    (LocalStore.get refHost 7 [("k", "v"), ("k_expiry", "9")] "k").2 = .str "v" ∧
    (LocalStore.get refHost 12 [("k", "v"), ("k_expiry", "9")] "k").2 = .null ∧
    MemoryStore.get refHost 7
        ⟨[("k", .str "v"), ("k_expiry", .num (.fin 9))], .objectPrototype⟩ "k"
      = (⟨[("k", .str "v"), ("k_expiry", .num (.fin 9))], .objectPrototype⟩,
          .val (.str "v")) ∧
    (MemoryStore.get refHost 12
        ⟨[("k", .str "v"), ("k_expiry", .num (.fin 9))], .objectPrototype⟩ "k").2
      = .val .null ∧
    (MemoryStore.get refHost 12 MemoryStore.fresh "k").2 = .val .null :=
  ⟨((get_liveness_criterion refHost 7 "k" [("k", "v"), ("k_expiry", "9")]
        MemoryStore.fresh).1 "9" rfl (by decide) (by rfl)).2,
    ((get_liveness_criterion refHost 12 "k" [("k", "v"), ("k_expiry", "9")]
        MemoryStore.fresh).2.1 (Or.inr ⟨"9", rfl, by rfl⟩)).1,
    (get_liveness_criterion refHost 7 "k" []
        ⟨[("k", .str "v"), ("k_expiry", .num (.fin 9))], .objectPrototype⟩).2.2.1
      (.num (.fin 9)) (.str "v") rfl rfl (by rfl) (by rfl),
    ((get_liveness_criterion refHost 12 "k" []
        ⟨[("k", .str "v"), ("k_expiry", .num (.fin 9))], .objectPrototype⟩).2.2.2
      (Or.inr ⟨.num (.fin 9), rfl, by rfl⟩)).1,
    ((get_liveness_criterion refHost 12 "k" [] MemoryStore.fresh).2.2.2
      (Or.inl ⟨refHost_lawful, rfl, rfl⟩)).1⟩

/-- C13 fails as stated in `memoryStore`: after `oSet("k", 5)` a `get("k")`
returns the number 5 itself, not the JSON text `5` that `set("k", "5")` would
have stored. -/
theorem oSet_is_set_of_json_text_counterexample :
    refHost.jsonStringify (.num (.fin 5)) = some "5" ∧
    (MemoryStore.get refHost 1
      (MemoryStore.oSet refHost 1 MemoryStore.fresh "k" (.num (.fin 5)) .undefined) "k").2
      = .val (.num (.fin 5)) ∧
    (MemoryStore.get refHost 1
      (MemoryStore.set refHost 1 MemoryStore.fresh "k" (.str "5") .undefined) "k").2
      = .val (.str "5") :=
  ⟨by rfl, by rfl, by rfl⟩

/-- C13, amended. In `localStore`, `oSet(k, o, e)` is `set(k, text, e)` for the
JSON text of `o`, a following `get(k)` not later than the expiry returns that
text, and `oGet(k)` is the JSON parse of the string form of what `get(k)`
returns. In `memoryStore`, `oSet` and `oGet` are `set` and `get` themselves:
the value is stored as it is and a following `get(k)`, on a key other than
`__proto__`, returns `o`. -/
theorem oSet_oGet_delegate (H : Host) (hH : H.Lawful) (now later : Nat) (key text : String)
    (o e : JsVal) (ls : LocalStore.State) (ms : MemoryStore.State)
    (hs : H.jsonStringify o = some text)
    (hlive : (expiryTime H now e).ltNat later = false) :
    LocalStore.oSet H now ls key o e = LocalStore.set H now ls key (.str text) e ∧
    (LocalStore.get H later (LocalStore.oSet H now ls key o e) key).2 = .str text ∧
    (LocalStore.oGet H later ls key).1 = (LocalStore.get H later ls key).1 ∧
    (LocalStore.oGet H later ls key).2
      = H.jsonParse ((LocalStore.get H later ls key).2.toStr H) ∧
    MemoryStore.oSet H now ms key o e = MemoryStore.set H now ms key o e ∧
    MemoryStore.oGet H later ms key = MemoryStore.get H later ms key ∧
    (key ≠ "__proto__" →
      (MemoryStore.get H later (MemoryStore.oSet H now ms key o e) key).2 = .val o) := by
  have h1 : LocalStore.oSet H now ls key o e = LocalStore.set H now ls key (.str text) e := by
    simp [LocalStore.oSet, LocalStore.stringified, hs]
  refine ⟨h1, ?_, rfl, rfl, rfl, rfl, fun hk => ?_⟩
  · rw [h1, LocalStore.local_get_set_live H hH now later ls key _ _ hlive]; rfl
  · show (MemoryStore.get H later (MemoryStore.set H now ms key o e) key).2 = .val o
    rw [MemoryStore.mem_get_set_live H hH now later ms key _ _ hk hlive]

/-- C13, amended, at a concrete input: the value `true`. -/
theorem oSet_oGet_delegate_witness :
    (LocalStore.get refHost 2 (LocalStore.oSet refHost 1 [] "k" (.bool true) .undefined) "k").2
      = .str "true" ∧
    (MemoryStore.get refHost 2
      (MemoryStore.oSet refHost 1 MemoryStore.fresh "k" (.bool true) .undefined) "k").2
      = .val (.bool true) :=
  have h := oSet_oGet_delegate refHost refHost_lawful 1 2 "k" "true" (.bool true) .undefined
    [] MemoryStore.fresh rfl (by rfl)
  ⟨h.2.1, h.2.2.2.2.2.2 (by decide)⟩

/-- C14 fails as stated in `memoryStore`: after `set("k", "not json")` the call
`oGet("k")` returns the text itself and nothing is thrown. -/
theorem oGet_malformed_text_counterexample :
    refHost.jsonParse "not json" = none ∧
    (MemoryStore.oGet refHost 2
      (MemoryStore.set refHost 1 MemoryStore.fresh "k" (.str "not json") .undefined) "k").2
      = .val (.str "not json") ∧
    (MemoryStore.step refHost
      (MemoryStore.set refHost 1 MemoryStore.fresh "k" (.str "not json") .undefined)
      (2, .oGet "k")).2 = .value (.val (.str "not json")) :=
  ⟨by rfl, by rfl, by rfl⟩

/-- C14, amended. In `localStore`, when the live entry under `k` holds a text
that `JSON.parse` rejects, `oGet(k)` returns no value: the parse failure is its
outcome, not `null`. In `memoryStore`, `oGet` does not parse and returns the
stored text, on every key other than `__proto__`. -/
theorem oGet_malformed_text (H : Host) (hH : H.Lawful) (now later : Nat) (key text : String)
    (e : JsVal) (ls : LocalStore.State) (ms : MemoryStore.State)
    (hbad : H.jsonParse text = none)
    (hlive : (expiryTime H now e).ltNat later = false) :
    (LocalStore.oGet H later (LocalStore.set H now ls key (.str text) e) key).2 = none ∧
    (LocalStore.step H (LocalStore.set H now ls key (.str text) e) (later, .oGet key)).2
      = .thrown ∧
    (key ≠ "__proto__" →
      (MemoryStore.oGet H later (MemoryStore.set H now ms key (.str text) e) key).2
        = .val (.str text)) := by
  have h1 : (LocalStore.oGet H later (LocalStore.set H now ls key (.str text) e) key).2
      = none := by
    simp only [LocalStore.oGet]
    rw [LocalStore.local_get_set_live H hH now later ls key _ _ hlive]
    simpa [JsVal.toStr] using hbad
  refine ⟨h1, ?_, fun hk => ?_⟩
  · simp only [LocalStore.step, h1]
  · show (MemoryStore.get H later (MemoryStore.set H now ms key (.str text) e) key).2 = _
    rw [MemoryStore.mem_get_set_live H hH now later ms key _ _ hk hlive]

/-- C14, amended, at a concrete input: the text `not json`. -/
theorem oGet_malformed_text_witness :
    (LocalStore.oGet refHost 2
      (LocalStore.set refHost 1 [] "k" (.str "not json") .undefined) "k").2 = none ∧
    (LocalStore.step refHost (LocalStore.set refHost 1 [] "k" (.str "not json") .undefined)
      (2, .oGet "k")).2 = .thrown ∧
    (MemoryStore.oGet refHost 2
      (MemoryStore.set refHost 1 MemoryStore.fresh "k" (.str "not json") .undefined) "k").2
      = .val (.str "not json") :=
  have h := oGet_malformed_text refHost refHost_lawful 1 2 "k" "not json" .undefined []
    MemoryStore.fresh rfl (by rfl)
  ⟨h.1, h.2.1, h.2.2 (by decide)⟩

/-! ## The medium simulates the object -/

theorem sim_nil (H : Host) : Sim H [] MemoryStore.fresh :=
  ⟨rfl, fun _ => ⟨rfl, fun v h => by simp [MemoryStore.fresh, Slots.read] at h⟩⟩

theorem sim_write (H : Host) (ls : LocalStore.State) (ms : MemoryStore.State) (x : String)
    (v : JsVal) (h : Sim H ls ms)
    (hv : (∃ t, v = .str t) ∨
      (∃ n : JsInt, v = .num n.toNum ∧ H.IsDouble n ∧ n.toNum.toBoolean = true)) :
    Sim H (Slots.write ls x (v.toStr H)) ⟨Slots.write ms.own x v, ms.proto⟩ := by
  refine ⟨h.1, fun y => ?_⟩
  show Slots.read (Slots.write ls x (v.toStr H)) y
      = (Slots.read (Slots.write ms.own x v) y).map (JsVal.toStr H) ∧
    ∀ w, Slots.read (Slots.write ms.own x v) y = some w → _
  rw [Slots.read_write, Slots.read_write]
  by_cases hxy : x = y
  · simp only [hxy, if_true, Option.map_some', Option.some.injEq, true_and]
    intro w hw
    subst hw
    exact hv
  · simp only [hxy, if_false]
    exact h.2 y

theorem sim_delete (H : Host) (ls : LocalStore.State) (ms : MemoryStore.State) (x : String)
    (h : Sim H ls ms) : Sim H (Slots.delete ls x) ⟨Slots.delete ms.own x, ms.proto⟩ := by
  refine ⟨h.1, fun y => ?_⟩
  show Slots.read (Slots.delete ls x) y
      = (Slots.read (Slots.delete ms.own x) y).map (JsVal.toStr H) ∧
    ∀ w, Slots.read (Slots.delete ms.own x) y = some w → _
  rw [Slots.read_delete, Slots.read_delete]
  by_cases hxy : x = y
  · simp [hxy]
  · simp only [hxy, if_false]
    exact h.2 y

theorem sim_remove (H : Host) (ls : LocalStore.State) (ms : MemoryStore.State) (key : String)
    (h : Sim H ls ms) : Sim H (LocalStore.remove ls key) (MemoryStore.remove ms key) :=
  sim_delete H _ _ _ (sim_delete H _ _ _ h)

theorem sim_set (H : Host) (hH : H.Lawful) (now : Nat) (ls : LocalStore.State)
    (ms : MemoryStore.State) (key t : String) (e : JsVal) (h : Sim H ls ms)
    (hk : key ≠ "__proto__") :
    Sim H (LocalStore.set H now ls key (.str t) e) (MemoryStore.set H now ms key (.str t) e) := by
  rw [MemoryStore.mem_set_of_ne H now ms key _ e hk]
  have h1 := sim_write H ls ms key (.str t) h (Or.inl ⟨t, rfl⟩)
  exact sim_write H _ _ (expirySlot key) (.num (expiryTime H now e)) h1
    (Or.inr ⟨expiryInt H now e, rfl, expiryInt_isDouble H hH now e,
      expiryTime_toBoolean H hH now e⟩)

/-- On a pristine object a name that `Object.prototype` does not hold reads as
the own property, or as `undefined`. -/
theorem mem_prop_pristine (H : Host) (st : MemoryStore.State) (name : String)
    (hp : MemoryStore.Pristine st) (h1 : name ≠ "__proto__")
    (h2 : name ∉ H.objectPrototypeNames) :
    MemoryStore.prop H st name
      = (match Slots.read st.own name with
         | some v => .val v
         | none => .val .undefined) := by
  unfold MemoryStore.Pristine at hp
  unfold MemoryStore.prop
  cases Slots.read st.own name with
  | some v => rfl
  | none => simp [MemoryStore.inherited, hp, MemoryStore.fromObjectPrototype, h1, h2]

theorem sim_get (H : Host) (hH : H.Lawful) (now : Nat) (ls : LocalStore.State)
    (ms : MemoryStore.State) (key : String) (h : Sim H ls ms) (hk1 : key ≠ "__proto__")
    (hk2 : key ∉ H.objectPrototypeNames) :
    Sim H (LocalStore.get H now ls key).1 (MemoryStore.get H now ms key).1 ∧
    JsOut.val (LocalStore.get H now ls key).2 = (MemoryStore.get H now ms key).2.asStored H := by
  have hrem := sim_remove H ls ms key h
  have hval : JsOut.val (match Slots.read ls key with
      | none => JsVal.null
      | some v => .str v) = (MemoryStore.prop H ms key).asStored H := by
    obtain ⟨hk, hkv⟩ := h.2 key
    rw [mem_prop_pristine H ms key h.1 hk1 hk2]
    cases hm : Slots.read ms.own key with
    | none => simp [hk, hm, JsOut.asStored, JsVal.asStored]
    | some w =>
      rcases hkv w hm with ⟨t, rfl⟩ | ⟨n, rfl, _⟩ <;>
        simp [hk, hm, JsOut.asStored, JsVal.asStored]
  obtain ⟨he, hev⟩ := h.2 (expirySlot key)
  cases hm : Slots.read ms.own (expirySlot key) with
  | none =>
    have hl : Slots.read ls (expirySlot key) = none := by simp [he, hm]
    rw [local_get_of_absent H now ls key hl, mem_get_of_absent H hH now ms key h.1 hm]
    exact ⟨hrem, rfl⟩
  | some v =>
    have hl : Slots.read ls (expirySlot key) = some (v.toStr H) := by simp [he, hm]
    have hsame : (v.toStr H = "" ∨ (H.stringToNumber (v.toStr H)).ltNat now = true)
        ↔ (v.toBoolean = false ∨ (v.toNumber H).ltNat now = true) := by
      rcases hev v hm with ⟨t, rfl⟩ | ⟨n, rfl, hn, hb⟩
      · by_cases ht : t = "" <;> simp [JsVal.toStr, JsVal.toBoolean, JsVal.toNumber, ht]
      · simp [JsVal.toStr, JsVal.toBoolean, JsVal.toNumber, hb,
          hH.numberToString_ne_empty n hn, hH.stringToNumber_numberToString n hn]
    by_cases hb : v.toBoolean = false ∨ (v.toNumber H).ltNat now = true
    · rw [local_get_evict H now ls key _ hl (hsame.2 hb), mem_get_own_evict H now ms key v hm hb]
      exact ⟨hrem, rfl⟩
    · have hb1 : v.toBoolean = true := by
        cases hv : v.toBoolean
        · exact absurd (Or.inl hv) hb
        · rfl
      have hb2 : (v.toNumber H).ltNat now = false := by
        cases hv : (v.toNumber H).ltNat now
        · rfl
        · exact absurd (Or.inr hv) hb
      have hl1 : v.toStr H ≠ "" := fun hc => hb (hsame.1 (Or.inl hc))
      have hl2 : (H.stringToNumber (v.toStr H)).ltNat now = false := by
        cases hv : (H.stringToNumber (v.toStr H)).ltNat now
        · rfl
        · exact absurd (hsame.1 (Or.inr hv)) hb
      rw [local_get_live H now ls key _ hl hl1 hl2,
        mem_get_live H now ms key
          (by rw [MemoryStore.mem_prop_of_own H ms _ _ hm]; exact hb1)
          (by rw [MemoryStore.mem_prop_of_own H ms _ _ hm]; exact hb2)]
      exact ⟨h, hval⟩

theorem sim_step (H : Host) (hH : H.Lawful) (ls : LocalStore.State) (ms : MemoryStore.State)
    (op : Nat × Op) (h : Sim H ls ms) (hp : op.2.plain = true)
    (ha : op.2.avoids H.objectPrototypeNames) :
    Sim H (LocalStore.step H ls op).1 (MemoryStore.step H ms op).1 ∧
    (LocalStore.step H ls op).2 = (MemoryStore.step H ms op).2.asStored H := by
  obtain ⟨now, op⟩ := op
  cases op with
  | set key v e =>
    have hk := (ha key rfl).1
    cases v with
    | str t => exact ⟨sim_set H hH now ls ms key t e h hk, rfl⟩
    | undefined => simp [Op.plain] at hp
    | null => simp [Op.plain] at hp
    | bool b => simp [Op.plain] at hp
    | num n => simp [Op.plain] at hp
    | arr items => simp [Op.plain] at hp
    | obj fields => simp [Op.plain] at hp
  | get key =>
    obtain ⟨h1, h2⟩ := sim_get H hH now ls ms key h (ha key rfl).1 (ha key rfl).2
    exact ⟨h1, by simp only [LocalStore.step, MemoryStore.step, Outcome.asStored, h2]⟩
  | oSet key v e => simp [Op.plain] at hp
  | oGet key => simp [Op.plain] at hp
  | remove key => exact ⟨sim_remove H ls ms key h, rfl⟩
  | clear =>
    refine ⟨?_, rfl⟩
    show Sim H (LocalStore.clear ls) (MemoryStore.clear ms)
    rw [mem_clear_eq]
    exact ⟨h.1, fun _ => ⟨rfl, fun v hv => by simp [Slots.read] at hv⟩⟩

theorem sim_outcomes (H : Host) (hH : H.Lawful) (ops : List (Nat × Op)) :
    ∀ (ls : LocalStore.State) (ms : MemoryStore.State), Sim H ls ms →
    (∀ op ∈ ops, op.2.plain = true) →
    (∀ op ∈ ops, op.2.avoids H.objectPrototypeNames) →
    LocalStore.outcomes H ls ops = (MemoryStore.outcomes H ms ops).map (Outcome.asStored H) := by
  induction ops with
  | nil => intro ls ms _ _ _; rfl
  | cons op rest ih =>
    intro ls ms h hp ha
    obtain ⟨h1, h2⟩ := sim_step H hH ls ms op h (hp op (by simp)) (ha op (by simp))
    simp only [LocalStore.outcomes, MemoryStore.outcomes, List.map_cons, h2]
    rw [ih _ _ h1 (fun o ho => hp o (by simp [ho])) (fun o ho => ha o (by simp [ho]))]

/-- C15 fails as stated: for `set("k", "not json")` at clock 1 followed by
`oGet("k")` at clock 2, on an empty medium and a fresh object, `localStore`
throws from `oGet` and `memoryStore` returns the text. -/
theorem backends_equivalent_counterexample :
    LocalStore.outcomes refHost []
      [(1, Op.set "k" (.str "not json") .undefined), (2, Op.oGet "k")]
      = [.done, .thrown] ∧
    MemoryStore.outcomes refHost MemoryStore.fresh
      [(1, Op.set "k" (.str "not json") .undefined), (2, Op.oGet "k")]
      = [.done, .value (.val (.str "not json"))] :=
  ⟨by rfl, by rfl⟩

/-- C15, amended: for every sequence of `set` calls with string values and of
`get`, `remove` and `clear` calls, on keys other than `__proto__` and the
names of the properties of `Object.prototype`, with the same arguments and the
same clock readings, `localStore` over an empty medium hands back from every
call the stored form of what a fresh `memoryStore` hands back: `null` for
`null` and `undefined`, the string form for any other value. -/
theorem backends_agree_on_plain_calls (H : Host) (hH : H.Lawful) (ops : List (Nat × Op))
    (hplain : ∀ op ∈ ops, op.2.plain = true)
    (hkeys : ∀ op ∈ ops, op.2.avoids H.objectPrototypeNames) :
    LocalStore.outcomes H [] ops
      = (MemoryStore.outcomes H MemoryStore.fresh ops).map (Outcome.asStored H) :=
  sim_outcomes H hH ops [] MemoryStore.fresh (sim_nil H) hplain hkeys

/-- C15, amended, at a concrete input: the test scenario `set("foo", "bar", 1)`,
`get("foo")` at once and again after 1500 ms. -/
theorem backends_agree_on_plain_calls_witness :
    LocalStore.outcomes refHost []
      [(0, Op.set "foo" (.str "bar") (.num (.fin 1))), (0, Op.get "foo"), (1500, Op.get "foo")]
      = (MemoryStore.outcomes refHost MemoryStore.fresh
          [(0, Op.set "foo" (.str "bar") (.num (.fin 1))), (0, Op.get "foo"),
            (1500, Op.get "foo")]).map (Outcome.asStored refHost) :=
  backends_agree_on_plain_calls refHost refHost_lawful _
    (by
      intro op hop
      simp only [List.mem_cons, List.mem_singleton, List.not_mem_nil, or_false] at hop
      rcases hop with rfl | rfl | rfl <;> rfl)
    (by
      intro op hop key hkey
      simp only [List.mem_cons, List.mem_singleton, List.not_mem_nil, or_false] at hop
      rcases hop with rfl | rfl | rfl <;>
        · simp only [Op.key, Option.some.injEq] at hkey
          subst hkey
          exact ⟨by decide, by decide⟩)

/-- C16: lazy eviction and read purity. When the expiry slot of `k` is absent
or its numeric value is less than `now`, `get(k)` returns `null` and leaves
exactly the state `remove(k)` produces; when the expiry slot holds a truthy
value whose numeric value is not less than `now`, `get(k)` returns what the
value slot holds, unparsed, and leaves the store unchanged. For `memoryStore`
the absent slot is that of an object with its original prototype. The claim
fails in `memoryStore` on an expiry slot that holds not-a-number: after
`set("k", "v")` and `set("k_expiry", NaN)` the expiry slot of `k` is there and
is not less than the clock reading, yet `get("k")` finds `!expiry` true,
returns `null` and removes the entry, where `localStore`, holding the string
`NaN`, returns `v` and removes nothing. -/
theorem get_evicts_or_reads (H : Host) (now : Nat) (key : String) (ls : LocalStore.State)
    (ms : MemoryStore.State) :
    ((Slots.read ls (expirySlot key) = none ∨
        ∃ expiry, Slots.read ls (expirySlot key) = some expiry ∧
          (H.stringToNumber expiry).ltNat now = true) →
      LocalStore.get H now ls key = (LocalStore.remove ls key, .null)) ∧
    (∀ expiry, Slots.read ls (expirySlot key) = some expiry → expiry ≠ "" →
      (H.stringToNumber expiry).ltNat now = false →
      LocalStore.get H now ls key
        = (ls, match Slots.read ls key with
               | none => .null
               | some v => .str v)) ∧
    (((H.Lawful ∧ MemoryStore.Pristine ms ∧ Slots.read ms.own (expirySlot key) = none) ∨
        ∃ expiry, Slots.read ms.own (expirySlot key) = some expiry ∧
          (expiry.toNumber H).ltNat now = true) →
      MemoryStore.get H now ms key = (MemoryStore.remove ms key, .val .null)) ∧
    (∀ expiry, Slots.read ms.own (expirySlot key) = some expiry → expiry.toBoolean = true →
      (expiry.toNumber H).ltNat now = false →
      MemoryStore.get H now ms key = (ms, MemoryStore.prop H ms key)) ∧
    ((JsVal.num .nan).toNumber refHost).ltNat 1700000000000 = false ∧
    LocalStore.get refHost 1700000000000 (LocalStore.run refHost []
        [(1700000000000, Op.set "k" (.str "v") .undefined),
          (1700000000000, Op.set "k_expiry" (.num .nan) .undefined)]) "k"
      = (LocalStore.run refHost []
          [(1700000000000, Op.set "k" (.str "v") .undefined),
            (1700000000000, Op.set "k_expiry" (.num .nan) .undefined)], .str "v") ∧
    Slots.read (MemoryStore.run refHost MemoryStore.fresh
        [(1700000000000, Op.set "k" (.str "v") .undefined),
          (1700000000000, Op.set "k_expiry" (.num .nan) .undefined)]).own "k_expiry"
      = some (.num .nan) ∧
    MemoryStore.get refHost 1700000000000 (MemoryStore.run refHost MemoryStore.fresh
        [(1700000000000, Op.set "k" (.str "v") .undefined),
          (1700000000000, Op.set "k_expiry" (.num .nan) .undefined)]) "k"
      = (⟨[("k_expiry_expiry", .num (.fin 1700010800000))], .objectPrototype⟩,
          .val .null) := by
  refine ⟨fun h => ?_, fun expiry hE h1 h2 => local_get_live H now ls key expiry hE h1 h2,
    fun h => ?_, fun expiry hE h1 h2 => ?_, by rfl, by rfl, by rfl, by rfl⟩
  · rcases h with h | ⟨expiry, hE, h⟩
    · exact local_get_of_absent H now ls key h
    · exact local_get_evict H now ls key expiry hE (Or.inr h)
  · rcases h with ⟨hH, hp, h⟩ | ⟨expiry, hE, h⟩
    · exact mem_get_of_absent H hH now ms key hp h
    · exact mem_get_own_evict H now ms key expiry hE (Or.inr h)
  · exact mem_get_live H now ms key
      (by rw [MemoryStore.mem_prop_of_own H ms _ _ hE]; exact h1)
      (by rw [MemoryStore.mem_prop_of_own H ms _ _ hE]; exact h2)

/-- C16 at concrete inputs: an entry with expiry 9 read at clocks 12 and 7,
in both stores. -/
theorem get_evicts_or_reads_witness :
    LocalStore.get refHost 12 [("k", "v"), ("k_expiry", "9")] "k" = ([], .null) ∧
    LocalStore.get refHost 7 [("k", "v"), ("k_expiry", "9")] "k"
      = ([("k", "v"), ("k_expiry", "9")], .str "v") ∧
    MemoryStore.get refHost 12
        ⟨[("k", .str "v"), ("k_expiry", .num (.fin 9))], .objectPrototype⟩ "k"
      = (⟨[], .objectPrototype⟩, .val .null) ∧
    MemoryStore.get refHost 7
        ⟨[("k", .str "v"), ("k_expiry", .num (.fin 9))], .objectPrototype⟩ "k"
      = (⟨[("k", .str "v"), ("k_expiry", .num (.fin 9))], .objectPrototype⟩,
          .val (.str "v")) :=
  ⟨(get_evicts_or_reads refHost 12 "k" [("k", "v"), ("k_expiry", "9")] MemoryStore.fresh).1
      (Or.inr ⟨"9", rfl, by rfl⟩),
    (get_evicts_or_reads refHost 7 "k" [("k", "v"), ("k_expiry", "9")] MemoryStore.fresh).2.1
      "9" rfl (by decide) (by rfl),
    (get_evicts_or_reads refHost 12 "k" []
      ⟨[("k", .str "v"), ("k_expiry", .num (.fin 9))], .objectPrototype⟩).2.2.1
      (Or.inr ⟨.num (.fin 9), rfl, by rfl⟩),
    (get_evicts_or_reads refHost 7 "k" []
      ⟨[("k", .str "v"), ("k_expiry", .num (.fin 9))], .objectPrototype⟩).2.2.2.1
      (.num (.fin 9)) rfl (by rfl) (by rfl)⟩

/-- C19 holds in `localStore` and fails in `memoryStore`. In `localStore`,
`get(k)` returns `null` in every state whose value slot `k` is absent. In
`memoryStore`, with the expiry slot of `a` holding 9999999999999 and no value
slot, as after `set("a_expiry", 9999999999999)`, `get("a")` at clock
1700000000000 returns `undefined`, the result of reading the missing
property, and not `null`. -/
theorem get_expiry_without_value (H : Host) (now : Nat) (key : String) (ls : LocalStore.State) :
    (Slots.read ls key = none → (LocalStore.get H now ls key).2 = .null) ∧
    (JsNum.fin 9999999999999).ltNat 1700000000000 = false ∧
    MemoryStore.get refHost 1700000000000
        ⟨[("a_expiry", .num (.fin 9999999999999))], .objectPrototype⟩ "a"
      = (⟨[("a_expiry", .num (.fin 9999999999999))], .objectPrototype⟩, .val .undefined) ∧
    (MemoryStore.get refHost 1700000000000
      (MemoryStore.set refHost 1700000000000 MemoryStore.fresh "a_expiry"
        (.num (.fin 9999999999999)) .undefined) "a").2 = .val .undefined ∧
    (LocalStore.get refHost 1700000000000
      (LocalStore.set refHost 1700000000000 [] "a_expiry"
        (.num (.fin 9999999999999)) .undefined) "a").2 = .null := by
  refine ⟨fun h => ?_, by rfl, by rfl, by rfl, by rfl⟩
  unfold LocalStore.get
  split
  · rfl
  · split
    · rfl
    · rw [h]

/-! ## Frame: calls on a key apart from `k` -/

theorem local_get_frame (H : Host) (now : Nat) (st : LocalStore.State) (j k : String)
    (h : apart j k) :
    Slots.read (LocalStore.get H now st j).1 k = Slots.read st k ∧
    Slots.read (LocalStore.get H now st j).1 (expirySlot k) = Slots.read st (expirySlot k) := by
  rcases local_get_state H now st j with e | e <;> rw [e]
  · exact ⟨rfl, rfl⟩
  · exact Slots.read_delete_pair_apart st j k h

theorem mem_get_frame (H : Host) (now : Nat) (st : MemoryStore.State) (j k : String)
    (h : apart j k) :
    (MemoryStore.get H now st j).1.proto = st.proto ∧
    Slots.read (MemoryStore.get H now st j).1.own k = Slots.read st.own k ∧
    Slots.read (MemoryStore.get H now st j).1.own (expirySlot k)
      = Slots.read st.own (expirySlot k) := by
  rcases mem_get_state H now st j with e | e <;> rw [e]
  · exact ⟨rfl, rfl, rfl⟩
  · exact ⟨rfl, Slots.read_delete_pair_apart st.own j k h⟩

theorem local_get_congr (H : Host) (now : Nat) (s1 s2 : LocalStore.State) (k : String)
    (hv : Slots.read s1 k = Slots.read s2 k)
    (he : Slots.read s1 (expirySlot k) = Slots.read s2 (expirySlot k)) :
    (LocalStore.get H now s1 k).2 = (LocalStore.get H now s2 k).2 := by
  unfold LocalStore.get
  rw [hv, he]
  cases Slots.read s2 (expirySlot k) with
  | none => rfl
  | some expiry =>
    simp only
    split
    · rfl
    · cases Slots.read s2 k <;> rfl

/-- A property read depends on the own property of that name and on the
prototype only. -/
theorem mem_prop_congr (H : Host) (s1 s2 : MemoryStore.State) (name : String)
    (hp : s1.proto = s2.proto) (h : Slots.read s1.own name = Slots.read s2.own name) :
    MemoryStore.prop H s1 name = MemoryStore.prop H s2 name := by
  unfold MemoryStore.prop
  rw [h, hp]

theorem mem_get_congr (H : Host) (now : Nat) (s1 s2 : MemoryStore.State) (k : String)
    (hv : MemoryStore.prop H s1 k = MemoryStore.prop H s2 k)
    (he : MemoryStore.prop H s1 (expirySlot k) = MemoryStore.prop H s2 (expirySlot k)) :
    (MemoryStore.get H now s1 k).2 = (MemoryStore.get H now s2 k).2 := by
  unfold MemoryStore.get
  rw [hv, he]
  simp only
  split <;> rfl

/-- C20: key independence up to the derived-name collision. For keys with
`k2 != k`, `k2 != k + "_expiry"` and `k != k2 + "_expiry"`: `set(k, ...)`,
`get(k)` and `remove(k)` change neither the value slot nor the expiry slot of
`k2`, and `get(k2)` at the same clock reading returns the same result after
each of them as before; in `localStore` for every `k`, in `memoryStore` for
every `k` but `__proto__`. With `k = "__proto__"` the claim fails in
`memoryStore`: `set("__proto__", o)` with `o` holding `foo` and a live
`foo_expiry` turns the result of `get("foo")` from `null` into `"x"`. -/
theorem calls_on_other_key_frame (H : Host) (now clock : Nat) (k k2 : String) (v e : JsVal)
    (ls : LocalStore.State) (ms : MemoryStore.State) :
    (k2 ≠ k → k2 ≠ expirySlot k → k ≠ expirySlot k2 →
      ∀ after ∈ [LocalStore.set H now ls k v e, (LocalStore.get H now ls k).1,
        LocalStore.remove ls k],
      Slots.read after k2 = Slots.read ls k2 ∧
      Slots.read after (expirySlot k2) = Slots.read ls (expirySlot k2) ∧
      (LocalStore.get H clock after k2).2 = (LocalStore.get H clock ls k2).2) ∧
    (k2 ≠ k → k2 ≠ expirySlot k → k ≠ expirySlot k2 → k ≠ "__proto__" →
      ∀ after ∈ [MemoryStore.set H now ms k v e, (MemoryStore.get H now ms k).1,
        MemoryStore.remove ms k],
      MemoryStore.prop H after k2 = MemoryStore.prop H ms k2 ∧
      MemoryStore.prop H after (expirySlot k2) = MemoryStore.prop H ms (expirySlot k2) ∧
      (MemoryStore.get H clock after k2).2 = (MemoryStore.get H clock ms k2).2) ∧
    ("foo" ≠ "__proto__" ∧ "foo" ≠ expirySlot "__proto__" ∧ "__proto__" ≠ expirySlot "foo") ∧
    (MemoryStore.get refHost 1700000000000 MemoryStore.fresh "foo").2 = .val .null ∧
    (MemoryStore.get refHost 1700000000000
      (MemoryStore.set refHost 1700000000000 MemoryStore.fresh "__proto__"
        (.obj [("foo", .str "x"), ("foo_expiry", .num (.fin 9999999999999))]) .undefined)
      "foo").2 = .val (.str "x") := by
  refine ⟨fun h1 h2 h3 => ?_, fun h1 h2 h3 hk => ?_,
    ⟨by decide, by decide, by decide⟩, by rfl, by rfl⟩
  · have hap : apart k k2 := ⟨fun e => h1 e.symm, h3, fun e => h2 e.symm⟩
    intro after hafter
    have hr : Slots.read after k2 = Slots.read ls k2 ∧
        Slots.read after (expirySlot k2) = Slots.read ls (expirySlot k2) := by
      simp only [List.mem_cons, List.mem_singleton, List.not_mem_nil, or_false] at hafter
      rcases hafter with rfl | rfl | rfl
      · exact Slots.read_write_pair_apart ls k k2 _ _ hap
      · exact local_get_frame H now ls k k2 hap
      · exact Slots.read_delete_pair_apart ls k k2 hap
    exact ⟨hr.1, hr.2, local_get_congr H clock after ls k2 hr.1 hr.2⟩
  · have hap : apart k k2 := ⟨fun e => h1 e.symm, h3, fun e => h2 e.symm⟩
    intro after hafter
    have hr : after.proto = ms.proto ∧ Slots.read after.own k2 = Slots.read ms.own k2 ∧
        Slots.read after.own (expirySlot k2) = Slots.read ms.own (expirySlot k2) := by
      simp only [List.mem_cons, List.mem_singleton, List.not_mem_nil, or_false] at hafter
      rcases hafter with rfl | rfl | rfl
      · rw [MemoryStore.mem_set_of_ne H now ms k v e hk]
        exact ⟨rfl, Slots.read_write_pair_apart ms.own k k2 _ _ hap⟩
      · exact mem_get_frame H now ms k k2 hap
      · exact ⟨rfl, Slots.read_delete_pair_apart ms.own k k2 hap⟩
    have hv := mem_prop_congr H after ms k2 hr.1 hr.2.1
    have he := mem_prop_congr H after ms (expirySlot k2) hr.1 hr.2.2
    exact ⟨hv, he, mem_get_congr H clock after ms k2 hv he⟩

/-- C20 at a concrete input: `set("bar", "baz")` next to a live `foo`, in both
stores. -/
theorem calls_on_other_key_frame_witness :
    (LocalStore.get refHost 2
      (LocalStore.set refHost 2 (LocalStore.set refHost 1 [] "foo" (.str "x") .undefined)
        "bar" (.str "baz") .undefined) "foo").2
      = (LocalStore.get refHost 2
          (LocalStore.set refHost 1 [] "foo" (.str "x") .undefined) "foo").2 ∧
    (MemoryStore.get refHost 2
      (MemoryStore.set refHost 2
        (MemoryStore.set refHost 1 MemoryStore.fresh "foo" (.str "x") .undefined)
        "bar" (.str "baz") .undefined) "foo").2
      = (MemoryStore.get refHost 2
          (MemoryStore.set refHost 1 MemoryStore.fresh "foo" (.str "x") .undefined) "foo").2 :=
  have h := calls_on_other_key_frame refHost 2 2 "bar" "foo" (.str "baz") .undefined
    (LocalStore.set refHost 1 [] "foo" (.str "x") .undefined)
    (MemoryStore.set refHost 1 MemoryStore.fresh "foo" (.str "x") .undefined)
  ⟨(h.1 (by decide) (by decide) (by decide) _ (by simp)).2.2,
    (h.2.1 (by decide) (by decide) (by decide) (by decide) _ (by simp)).2.2⟩

/-! ## Once `get` has returned `null` -/

theorem local_dormant_congr (s1 s2 : LocalStore.State) (k : String)
    (h : Slots.read s1 k = Slots.read s2 k ∧
      Slots.read s1 (expirySlot k) = Slots.read s2 (expirySlot k))
    (hd : LocalStore.Dormant s2 k) : LocalStore.Dormant s1 k := by
  unfold LocalStore.Dormant at *
  rw [h.1, h.2]
  exact hd

theorem mem_dormant_congr (H : Host) (s1 s2 : MemoryStore.State) (k : String)
    (h : s1.proto = s2.proto ∧ Slots.read s1.own k = Slots.read s2.own k ∧
      Slots.read s1.own (expirySlot k) = Slots.read s2.own (expirySlot k))
    (hd : MemoryStore.Dormant H s2 k) : MemoryStore.Dormant H s1 k := by
  unfold MemoryStore.Dormant at *
  rw [mem_prop_congr H s1 s2 k h.1 h.2.1, mem_prop_congr H s1 s2 _ h.1 h.2.2]
  exact hd

theorem local_dormant_remove (st : LocalStore.State) (k : String) :
    LocalStore.Dormant (LocalStore.remove st k) k :=
  Or.inl (Slots.read_delete_same _ _)

theorem mem_dormant_of_absent (H : Host) (hH : H.Lawful) (st : MemoryStore.State) (k : String)
    (hp : MemoryStore.Pristine st) (h : Slots.read st.own (expirySlot k) = none) :
    MemoryStore.Dormant H st k := by
  refine Or.inl ?_
  rw [mem_prop_expiry_of_absent H hH st k hp h]
  rfl

theorem mem_dormant_remove (H : Host) (hH : H.Lawful) (st : MemoryStore.State) (k : String)
    (hp : MemoryStore.Pristine st) : MemoryStore.Dormant H (MemoryStore.remove st k) k :=
  mem_dormant_of_absent H hH _ k hp (Slots.read_delete_same _ _)

theorem local_dormant_of_get_null (H : Host) (now : Nat) (st : LocalStore.State) (k : String)
    (h : (LocalStore.get H now st k).2 = .null) :
    LocalStore.Dormant (LocalStore.get H now st k).1 k := by
  cases hE : Slots.read st (expirySlot k) with
  | none =>
    rw [local_get_of_absent H now st k hE]
    exact local_dormant_remove st k
  | some expiry =>
    by_cases hl : expiry = "" ∨ (H.stringToNumber expiry).ltNat now = true
    · rw [local_get_evict H now st k expiry hE hl]
      exact local_dormant_remove st k
    · have h1 : expiry ≠ "" := fun hc => hl (Or.inl hc)
      have h2 : (H.stringToNumber expiry).ltNat now = false := by
        cases hv : (H.stringToNumber expiry).ltNat now
        · rfl
        · exact absurd (Or.inr hv) hl
      rw [local_get_live H now st k expiry hE h1 h2] at h ⊢
      cases hv : Slots.read st k with
      | none => exact Or.inr (Or.inr hv)
      | some v => rw [hv] at h; cases h

theorem mem_dormant_of_get_null (H : Host) (hH : H.Lawful) (now : Nat) (st : MemoryStore.State)
    (k : String) (hp : MemoryStore.Pristine st)
    (h : (MemoryStore.get H now st k).2 = .val .null) :
    MemoryStore.Dormant H (MemoryStore.get H now st k).1 k := by
  by_cases hl : (MemoryStore.prop H st (expirySlot k)).toBoolean = false ∨
      ((MemoryStore.prop H st (expirySlot k)).toNumber H).ltNat now = true
  · rw [mem_get_evict H now st k hl]
    exact mem_dormant_remove H hH st k hp
  · have h1 : (MemoryStore.prop H st (expirySlot k)).toBoolean = true := by
      cases hv : (MemoryStore.prop H st (expirySlot k)).toBoolean
      · exact absurd (Or.inl hv) hl
      · rfl
    have h2 : ((MemoryStore.prop H st (expirySlot k)).toNumber H).ltNat now = false := by
      cases hv : ((MemoryStore.prop H st (expirySlot k)).toNumber H).ltNat now
      · rfl
      · exact absurd (Or.inr hv) hl
    rw [mem_get_live H now st k h1 h2] at h ⊢
    exact Or.inr h

theorem local_get_null_of_dormant (H : Host) (now : Nat) (st : LocalStore.State) (k : String)
    (h : LocalStore.Dormant st k) : (LocalStore.get H now st k).2 = .null := by
  unfold LocalStore.get
  rcases h with h | h | h
  · rw [h]
  · rw [h]; rfl
  · split
    · rfl
    · split
      · rfl
      · rw [h]

theorem mem_get_null_of_dormant (H : Host) (now : Nat) (st : MemoryStore.State) (k : String)
    (h : MemoryStore.Dormant H st k) : (MemoryStore.get H now st k).2 = .val .null := by
  unfold MemoryStore.get
  simp only
  split
  · rfl
  · rename_i hb
    rcases h with h | h
    · rw [h] at hb; simp at hb
    · exact h

theorem local_step_keeps_dormant (H : Host) (st : LocalStore.State) (k : String)
    (op : Nat × Op) (h : LocalStore.Dormant st k) (hop : op.2.keepsAway k) :
    LocalStore.Dormant (LocalStore.step H st op).1 k := by
  obtain ⟨now, op⟩ := op
  have hget : ∀ j, j = k ∨ apart j k → LocalStore.Dormant (LocalStore.get H now st j).1 k := by
    intro j hj
    rcases hj with rfl | hj
    · rcases local_get_state H now st j with e | e <;> rw [e]
      · exact h
      · exact local_dormant_remove st j
    · exact local_dormant_congr _ st k (local_get_frame H now st j k hj) h
  cases op with
  | set j v e =>
    exact local_dormant_congr _ st k (Slots.read_write_pair_apart st j k _ _ hop) h
  | get j => exact hget j hop
  | oSet j v e =>
    exact local_dormant_congr _ st k (Slots.read_write_pair_apart st j k _ _ hop) h
  | oGet j => exact hget j hop
  | remove j =>
    rcases hop with rfl | hj
    · exact local_dormant_remove st j
    · exact local_dormant_congr _ st k (Slots.read_delete_pair_apart st j k hj) h
  | clear => exact Or.inl rfl

theorem mem_step_keeps_dormant (H : Host) (hH : H.Lawful) (st : MemoryStore.State) (k : String)
    (op : Nat × Op) (hp : MemoryStore.Pristine st) (h : MemoryStore.Dormant H st k)
    (hop : op.2.keepsAway k) (hproto : op.2.setKey ≠ some "__proto__") :
    MemoryStore.Pristine (MemoryStore.step H st op).1 ∧
    MemoryStore.Dormant H (MemoryStore.step H st op).1 k := by
  obtain ⟨now, op⟩ := op
  have hset : ∀ (j : String) (v e : JsVal), apart j k → j ≠ "__proto__" →
      MemoryStore.Pristine (MemoryStore.set H now st j v e) ∧
      MemoryStore.Dormant H (MemoryStore.set H now st j v e) k := by
    intro j v e hj hne
    rw [MemoryStore.mem_set_of_ne H now st j v e hne]
    exact ⟨hp, mem_dormant_congr H _ st k
      ⟨rfl, Slots.read_write_pair_apart st.own j k _ _ hj⟩ h⟩
  have hrem : ∀ j, j = k ∨ apart j k →
      MemoryStore.Pristine (MemoryStore.remove st j) ∧
      MemoryStore.Dormant H (MemoryStore.remove st j) k := by
    intro j hj
    rcases hj with rfl | hj
    · exact ⟨hp, mem_dormant_remove H hH st j hp⟩
    · exact ⟨hp, mem_dormant_congr H _ st k
        ⟨rfl, Slots.read_delete_pair_apart st.own j k hj⟩ h⟩
  have hget : ∀ j, j = k ∨ apart j k →
      MemoryStore.Pristine (MemoryStore.get H now st j).1 ∧
      MemoryStore.Dormant H (MemoryStore.get H now st j).1 k := by
    intro j hj
    rcases mem_get_state H now st j with e | e <;> rw [e]
    · exact ⟨hp, h⟩
    · exact hrem j hj
  cases op with
  | set j v e =>
    simp only [Op.setKey, ne_eq, Option.some.injEq] at hproto
    exact hset j v e hop hproto
  | get j => exact hget j hop
  | oSet j v e =>
    simp only [Op.setKey, ne_eq, Option.some.injEq] at hproto
    exact hset j v e hop hproto
  | oGet j => exact hget j hop
  | remove j => exact hrem j hop
  | clear =>
    show MemoryStore.Pristine (MemoryStore.clear st) ∧
      MemoryStore.Dormant H (MemoryStore.clear st) k
    rw [mem_clear_eq]
    exact ⟨hp, mem_dormant_of_absent H hH _ k hp rfl⟩

theorem local_run_keeps_dormant (H : Host) (k : String) (ops : List (Nat × Op)) :
    ∀ st : LocalStore.State, LocalStore.Dormant st k → (∀ op ∈ ops, op.2.keepsAway k) →
    LocalStore.Dormant (LocalStore.run H st ops) k := by
  induction ops with
  | nil => intro st h _; exact h
  | cons op rest ih =>
    intro st h hops
    exact ih _ (local_step_keeps_dormant H st k op h (hops op (by simp)))
      (fun o ho => hops o (by simp [ho]))

theorem mem_run_keeps_dormant (H : Host) (hH : H.Lawful) (k : String) (ops : List (Nat × Op)) :
    ∀ st : MemoryStore.State, MemoryStore.Pristine st → MemoryStore.Dormant H st k →
    (∀ op ∈ ops, op.2.keepsAway k) → (∀ op ∈ ops, op.2.setKey ≠ some "__proto__") →
    MemoryStore.Dormant H (MemoryStore.run H st ops) k := by
  induction ops with
  | nil => intro st _ h _ _; exact h
  | cons op rest ih =>
    intro st hp h hops hproto
    have hs := mem_step_keeps_dormant H hH st k op hp h (hops op (by simp))
      (hproto op (by simp))
    exact ih _ hs.1 hs.2 (fun o ho => hops o (by simp [ho]))
      (fun o ho => hproto o (by simp [ho]))

theorem local_oGet_of_get_null (H : Host) (hH : H.Lawful) (now : Nat) (st : LocalStore.State)
    (k : String) (h : (LocalStore.get H now st k).2 = .null) :
    (LocalStore.oGet H now st k).2 = some .null := by
  simp only [LocalStore.oGet, h, JsVal.toStr]
  exact hH.jsonParse_null

/-- C17 fails as stated: starting from empty stores, after `set("a", "v")` at
clock 1 and `set("a_expiry_expiry", "x")` at clock 2 the key `a_expiry` was
never set, yet `oGet("a_expiry")` at clock 3 returns the number 10800001. -/
theorem oGet_never_set_key_counterexample :
    (∀ op ∈ [((1 : Nat), Op.set "a" (.str "v") .undefined),
        (2, Op.set "a_expiry_expiry" (.str "x") .undefined)],
      op.2.setKey ≠ some "a_expiry") ∧
    (LocalStore.oGet refHost 3 (LocalStore.run refHost []
      [(1, Op.set "a" (.str "v") .undefined),
        (2, Op.set "a_expiry_expiry" (.str "x") .undefined)]) "a_expiry").2
      = some (.num (.fin 10800001)) ∧
    (MemoryStore.oGet refHost 3 (MemoryStore.run refHost MemoryStore.fresh
      [(1, Op.set "a" (.str "v") .undefined),
        (2, Op.set "a_expiry_expiry" (.str "x") .undefined)]) "a_expiry").2
      = .val (.num (.fin 10800001)) := by
  refine ⟨?_, by rfl, by rfl⟩
  intro op hop
  simp only [List.mem_cons, List.mem_singleton, List.not_mem_nil, or_false] at hop
  rcases hop with rfl | rfl <;> simp [Op.setKey]

/-- C17, amended. In both stores `oGet(k)` returns `null` and throws nothing:
whenever `get(k)` returns `null`; after every sequence of calls from an empty
store with no `set` or `oSet` on `k` or on `k + "_expiry"`; after `remove(k)`
followed by such a sequence; on an entry whose expiry slot has a numeric value
below the clock reading; and after `oSet(k, o, t)` at clock `t0`, for a
positive integer `t`, at every clock reading above `t0 + 1000 * t`. In
`memoryStore` the two statements on sequences are for sequences with no `set`
or `oSet` on the key `__proto__`, on an object that still has its original
prototype. Clock readings are time values, at most `maxTime`. -/
theorem oGet_absent_returns_null (H : Host) (hH : H.Lawful) (now : Nat) (k : String)
    (post : List (Nat × Op))
    (hpost : ∀ op ∈ post, op.2.setKey ≠ some k ∧ op.2.setKey ≠ some (expirySlot k)) :
    (∀ ls : LocalStore.State, (LocalStore.get H now ls k).2 = .null →
      (LocalStore.oGet H now ls k).2 = some .null) ∧
    (LocalStore.oGet H now (LocalStore.run H [] post) k).2 = some .null ∧
    (∀ (ls : LocalStore.State) (pre : List (Nat × Op)) (tr : Nat),
      (LocalStore.oGet H now (LocalStore.run H ls (pre ++ (tr, Op.remove k) :: post)) k).2
        = some .null) ∧
    ((∀ op ∈ post, op.2.setKey ≠ some "__proto__") →
      (MemoryStore.oGet H now (MemoryStore.run H MemoryStore.fresh post) k).2 = .val .null ∧
      ∀ (ms : MemoryStore.State) (tr : Nat), MemoryStore.Pristine ms →
        (MemoryStore.oGet H now (MemoryStore.run H ms ((tr, Op.remove k) :: post)) k).2
          = .val .null) ∧
    (∀ (ls : LocalStore.State) (ms : MemoryStore.State) (expiry : String) (w : JsVal),
      Slots.read ls (expirySlot k) = some expiry → (H.stringToNumber expiry).ltNat now = true →
      Slots.read ms.own (expirySlot k) = some w → (w.toNumber H).ltNat now = true →
      (LocalStore.oGet H now ls k).2 = some .null ∧
      (MemoryStore.oGet H now ms k).2 = .val .null) ∧
    (∀ (ls : LocalStore.State) (ms : MemoryStore.State) (t0 : Nat) (t : Int) (o : JsVal),
      1 ≤ t → (t0 : Int) + 1000 * t < (now : Int) → now ≤ maxTime →
      (LocalStore.oGet H now (LocalStore.oSet H t0 ls k o (.num (.fin (t : ℚ)))) k).2
        = some .null ∧
      (MemoryStore.oGet H now (MemoryStore.oSet H t0 ms k o (.num (.fin (t : ℚ)))) k).2
        = .val .null) := by
  have hl0 : ∀ st : LocalStore.State, Slots.read st (expirySlot k) = none →
      (LocalStore.oGet H now (LocalStore.run H st post) k).2 = some .null := by
    intro st h0
    apply local_oGet_of_get_null H hH
    rw [local_get_of_absent H now _ k (local_run_keeps_absent H k post st h0 hpost)]
  have hm0 : (∀ op ∈ post, op.2.setKey ≠ some "__proto__") →
      ∀ st : MemoryStore.State, MemoryStore.Pristine st →
      Slots.read st.own (expirySlot k) = none →
      (MemoryStore.oGet H now (MemoryStore.run H st post) k).2 = .val .null := by
    intro hproto st hp h0
    show (MemoryStore.get H now (MemoryStore.run H st post) k).2 = .val .null
    have h := mem_run_keeps_absent H k post st hp h0 hpost hproto
    rw [mem_get_of_absent H hH now _ k h.1 h.2]
  refine ⟨fun ls h => local_oGet_of_get_null H hH now ls k h, hl0 [] rfl,
    fun ls pre tr => ?_, fun hproto => ⟨hm0 hproto _ rfl rfl, fun ms tr hp => ?_⟩, ?_, ?_⟩
  · rw [local_run_append, local_run_cons]
    exact hl0 _ (Slots.read_delete_same _ _)
  · rw [mem_run_cons]
    have hp0 : MemoryStore.Pristine (MemoryStore.step H ms (tr, Op.remove k)).1 := hp
    exact hm0 hproto _ hp0 (Slots.read_delete_same _ _)
  · intro ls ms expiry w hle hlt hme hmt
    constructor
    · apply local_oGet_of_get_null H hH
      rw [local_get_evict H now ls k expiry hle (Or.inr hlt)]
    · show (MemoryStore.get H now ms k).2 = .val .null
      rw [mem_get_own_evict H now ms k w hme (Or.inr hmt)]
  · intro ls ms t0 t o ht hlate hclock
    have hlt := expiryTime_lt_of_late H hH t0 now t ht hlate
      (maxTime_lt_two_pow_53 t0 now t hlate hclock)
    constructor
    · apply local_oGet_of_get_null H hH
      simp only [LocalStore.oSet]
      rw [LocalStore.local_get_set_expired H hH t0 now ls k _ _ hlt]
    · show (MemoryStore.get H now (MemoryStore.set H t0 ms k o _) k).2 = .val .null
      rw [MemoryStore.mem_get_set_expired H t0 now ms k _ _ hlt]

/-- C17, amended, at a concrete input: the test scenario, `oSet("foo", 7, 1)`
at clock 0 and `oGet("foo")` at clock 1500. -/
theorem oGet_absent_returns_null_witness :
    (LocalStore.oGet refHost 1500
      (LocalStore.oSet refHost 0 [] "foo" (.num (.fin 7)) (.num (.fin ((1 : Int) : ℚ))))
      "foo").2 = some .null ∧
    (MemoryStore.oGet refHost 1500
      (MemoryStore.oSet refHost 0 MemoryStore.fresh "foo" (.num (.fin 7))
        (.num (.fin ((1 : Int) : ℚ)))) "foo").2 = .val .null :=
  (oGet_absent_returns_null refHost refHost_lawful 1500 "foo" []
    (fun _ h => absurd h (List.not_mem_nil _))).2.2.2.2.2 [] MemoryStore.fresh 0 1
    (.num (.fin 7)) (by decide) (by decide) (by decide)

/-- C18 fails as stated: `get("a_expiry")` on empty stores returns `null`; then
`set("a", "v")` and `set("a_expiry_expiry", "x")`, neither of them a `set` on
`a_expiry`, make a later `get("a_expiry")` return the expiry written for `a`. -/
theorem no_resurrection_counterexample :
    (LocalStore.get refHost 1 [] "a_expiry").2 = .null ∧
    (MemoryStore.get refHost 1 MemoryStore.fresh "a_expiry").2 = .val .null ∧
    (∀ op ∈ [((2 : Nat), Op.set "a" (.str "v") .undefined),
        (3, Op.set "a_expiry_expiry" (.str "x") .undefined)],
      op.2.setKey ≠ some "a_expiry") ∧
    (LocalStore.get refHost 4 (LocalStore.run refHost (LocalStore.get refHost 1 [] "a_expiry").1
      [(2, Op.set "a" (.str "v") .undefined),
        (3, Op.set "a_expiry_expiry" (.str "x") .undefined)]) "a_expiry").2
      = .str "10800002" ∧
    (MemoryStore.get refHost 4 (MemoryStore.run refHost
      (MemoryStore.get refHost 1 MemoryStore.fresh "a_expiry").1
      [(2, Op.set "a" (.str "v") .undefined),
        (3, Op.set "a_expiry_expiry" (.str "x") .undefined)]) "a_expiry").2
      = .val (.num (.fin 10800002)) := by
  refine ⟨by rfl, by rfl, ?_, by rfl, by rfl⟩
  intro op hop
  simp only [List.mem_cons, List.mem_singleton, List.not_mem_nil, or_false] at hop
  rcases hop with rfl | rfl <;> simp [Op.setKey]

/-- C18, amended: no resurrection. In both stores, once a `get(k)` has returned
`null`, every later `get(k)` returns `null` too, whatever the clock readings
(a clock that moves backwards included), unless in between there was a `set`
or `oSet` on `k`, or a call on a key that shares a slot with `k`
(`k + "_expiry"`, or a key `j` with `j + "_expiry" = k`). In `memoryStore`
this is stated for an object that still has its original prototype and for
sequences with no `set` or `oSet` on the key `__proto__`. -/
theorem no_resurrection_without_shared_slots (H : Host) (t0 t1 : Nat) (k : String)
    (ops : List (Nat × Op)) (ls : LocalStore.State) (ms : MemoryStore.State)
    (hops : ∀ op ∈ ops, op.2.keepsAway k) :
    ((LocalStore.get H t0 ls k).2 = .null →
      (LocalStore.get H t1 (LocalStore.run H (LocalStore.get H t0 ls k).1 ops) k).2 = .null) ∧
    (H.Lawful → MemoryStore.Pristine ms → (∀ op ∈ ops, op.2.setKey ≠ some "__proto__") →
      (MemoryStore.get H t0 ms k).2 = .val .null →
      (MemoryStore.get H t1 (MemoryStore.run H (MemoryStore.get H t0 ms k).1 ops) k).2
        = .val .null) := by
  refine ⟨fun h => local_get_null_of_dormant H t1 _ k
      (local_run_keeps_dormant H k ops _ (local_dormant_of_get_null H t0 ls k h) hops),
    fun hH hp hproto h => ?_⟩
  have hp1 : MemoryStore.Pristine (MemoryStore.get H t0 ms k).1 := by
    rcases mem_get_state H t0 ms k with e | e <;> rw [e] <;> exact hp
  exact mem_get_null_of_dormant H t1 _ k
    (mem_run_keeps_dormant H hH k ops _ hp1 (mem_dormant_of_get_null H hH t0 ms k hp h) hops
      hproto)

/-- C18, amended, at a concrete input: `foo` expired at clock 5000, then
`set("bar", "baz")`, `clear()` and a clock set back to 0. -/
theorem no_resurrection_without_shared_slots_witness :
    (LocalStore.get refHost 0 (LocalStore.run refHost
      (LocalStore.get refHost 5000 [("foo", "x"), ("foo_expiry", "1000")] "foo").1
      [(5001, Op.set "bar" (.str "baz") .undefined), (5002, Op.clear)]) "foo").2 = .null ∧
    (MemoryStore.get refHost 0 (MemoryStore.run refHost
      (MemoryStore.get refHost 5000
        ⟨[("foo", .str "x"), ("foo_expiry", .num (.fin 1000))], .objectPrototype⟩ "foo").1
      [(5001, Op.set "bar" (.str "baz") .undefined), (5002, Op.clear)]) "foo").2
      = .val .null :=
  have h := no_resurrection_without_shared_slots refHost 5000 0 "foo"
    [(5001, Op.set "bar" (.str "baz") .undefined), (5002, Op.clear)]
    [("foo", "x"), ("foo_expiry", "1000")]
    ⟨[("foo", .str "x"), ("foo_expiry", .num (.fin 1000))], .objectPrototype⟩
    (by
      intro op hop
      simp only [List.mem_cons, List.mem_singleton, List.not_mem_nil, or_false] at hop
      rcases hop with rfl | rfl
      · exact ⟨by decide, by decide, by decide⟩
      · trivial)
  ⟨h.1 (by rfl), h.2 refHost_lawful rfl
    (by
      intro op hop
      simp only [List.mem_cons, List.mem_singleton, List.not_mem_nil, or_false] at hop
      rcases hop with rfl | rfl <;> simp [Op.setKey])
    (by rfl)⟩

end CacheJs
